import Mathlib

/-!
Shallow embedding of the data-pipeline repository (Rust, polars/serde_json)
for checking its natural-language specification.

Conventions of the embedding:
* `f64` values are modelled by `F64`: either NaN, a signed infinity, or an
  exact rational.  Rounding error and overflow of IEEE doubles are not
  modelled; the NaN checks and comparisons that the code performs are.
* `serde_json::Value` is modelled by `Json`; numbers keep the integer/float
  distinction that `serde_json::Number` has (it matters for `as_u64`).
* Fallible Rust functions returning `anyhow::Result` are modelled with
  `Except String`; a Rust panic (`unwrap` on an `Err`) is modelled as an
  `Except.error`.
* polars `DataFrame`s are modelled as ordered association lists from column
  name to a typed column.
-/

namespace DataPipeline

/-! Exact-rational helpers.

`Rat.add`/`sub`/`mul`/`inv` are `@[irreducible]` in this toolchain, so the
arithmetic the embedding needs is written out on numerators and denominators
through `Rat.divInt` (which normalises, keeping structural equality equal to
rational equality).  Denominators of `Rat` are always positive, which the
cross-multiplied comparisons below rely on. -/

def qOfInt (i : ℤ) : ℚ := Rat.divInt i 1

def qAdd (a b : ℚ) : ℚ := Rat.divInt (a.num * b.den + b.num * a.den) (a.den * b.den)

def qSub (a b : ℚ) : ℚ := Rat.divInt (a.num * b.den - b.num * a.den) (a.den * b.den)

def qMul (a b : ℚ) : ℚ := Rat.divInt (a.num * b.num) (a.den * b.den)

def qDiv (a b : ℚ) : ℚ := Rat.divInt (a.num * b.den) (a.den * b.num)

def qNeg (a : ℚ) : ℚ := Rat.divInt (-a.num) a.den

def qLtb (a b : ℚ) : Bool := decide (a.num * b.den < b.num * a.den)

def qLeb (a b : ℚ) : Bool := decide (a.num * b.den ≤ b.num * a.den)

/-- Model of an IEEE double as used by the pipeline: NaN, ±∞, or an exact
rational.  (Finite-precision rounding and overflow are not modelled.) -/
inductive F64 where
  | nan
  | inf (neg : Bool)
  | num (q : ℚ)
deriving DecidableEq, Repr

namespace F64

/-- `f64::is_nan`. -/
def isNan : F64 → Bool
  | .nan => true
  | _ => false

/-- IEEE `<` (NaN incomparable). -/
def lt : F64 → F64 → Bool
  | .nan, _ => false
  | _, .nan => false
  | .inf true, .inf true => false
  | .inf true, _ => true
  | _, .inf true => false
  | .inf false, _ => false
  | .num _, .inf false => true
  | .num a, .num b => qLtb a b

/-- IEEE `<=` (NaN incomparable). -/
def le : F64 → F64 → Bool
  | .nan, _ => false
  | _, .nan => false
  | .inf true, _ => true
  | _, .inf true => false
  | _, .inf false => true
  | .inf false, _ => false
  | .num a, .num b => qLeb a b

/-- IEEE subtraction (signed zeros ignored). -/
def sub : F64 → F64 → F64
  | .nan, _ => .nan
  | _, .nan => .nan
  | .inf a, .inf b => if a = b then .nan else .inf a
  | .inf a, .num _ => .inf a
  | .num _, .inf b => .inf (!b)
  | .num a, .num b => .num (qSub a b)

/-- IEEE multiplication (signed zeros ignored). -/
def mul : F64 → F64 → F64
  | .nan, _ => .nan
  | _, .nan => .nan
  | .inf a, .inf b => .inf (xor a b)
  | .inf a, .num b => if b.num = 0 then .nan else .inf (xor a (decide (b.num < 0)))
  | .num a, .inf b => if a.num = 0 then .nan else .inf (xor (decide (a.num < 0)) b)
  | .num a, .num b => .num (qMul a b)

/-- IEEE division (signed zeros ignored; `x/0` gives a signed infinity as for
`+0`). -/
def div : F64 → F64 → F64
  | .nan, _ => .nan
  | _, .nan => .nan
  | .inf _, .inf _ => .nan
  | .inf a, .num b => .inf (xor a (decide (b.num < 0)))
  | .num _, .inf _ => .num (qOfInt 0)
  | .num a, .num b =>
    if b.num = 0 then (if a.num = 0 then .nan else .inf (decide (a.num < 0)))
    else .num (qDiv a b)

/-- Rounding half away from zero, as `f64::round` does:
`⌊q + 1/2⌋` for nonnegative `q`, `⌈q - 1/2⌉` otherwise, written with
integer floor division on the fraction. -/
def roundQ (q : ℚ) : ℤ :=
  if 0 ≤ q.num then (2 * q.num + q.den).fdiv (2 * q.den)
  else -((2 * (-q.num) + q.den).fdiv (2 * q.den))

/-- `f64::round`. -/
def roundAway : F64 → F64
  | .nan => .nan
  | .inf b => .inf b
  | .num q => .num (qOfInt (roundQ q))

end F64

/-- Leading decimal digits of a character list, and the rest. -/
def takeDigits (cs : List Char) : List Char × List Char :=
  (cs.takeWhile Char.isDigit, cs.dropWhile Char.isDigit)

/-- Numeric value of a digit string. -/
def digitsToNat (ds : List Char) : ℕ :=
  ds.foldl (fun a c => a * 10 + (c.toNat - '0'.toNat)) 0

/-- ASCII lower-casing of one character (the inputs the pipeline handles are
ASCII; Rust's Unicode case folding coincides on them). -/
def lowerCh (c : Char) : Char := c.toLower

def isWsCh (c : Char) : Bool := c.isWhitespace

/-- ASCII `[a-zA-Z]` (and Rust `is_alphabetic` on the ASCII inputs here). -/
def isAlphaCh (c : Char) : Bool := c.isAlpha

/-- The `[-–]` character class. -/
def isDashCh (c : Char) : Bool := c == '-' || c == '–'

/-- `str::parse::<f64>`: optional sign, then `inf`/`infinity`/`nan`
(case-insensitive) or a decimal mantissa with optional exponent; the whole
string must be consumed.  (Overflow of the f64 range to infinity is not
modelled.) -/
def parseF64 (s : String) : Option F64 :=
  let cs := s.data.map lowerCh
  match cs with
  | [] => none
  | _ =>
    let (neg, cs) :=
      match cs with
      | '-' :: t => (true, t)
      | '+' :: t => (false, t)
      | _ => (false, cs)
    if cs = "inf".data ∨ cs = "infinity".data then some (.inf neg)
    else if cs = "nan".data then some .nan
    else
      let (intDs, r1) := takeDigits cs
      let (fracDs, r2) :=
        match r1 with
        | '.' :: t => takeDigits t
        | _ => ([], r1)
      if intDs = [] ∧ fracDs = [] then none
      else
        let mant : ℚ := qAdd (qOfInt (digitsToNat intDs))
          (Rat.divInt (digitsToNat fracDs) (((10 : ℕ) ^ fracDs.length : ℕ) : ℤ))
        match r2 with
        | [] => some (.num (if neg then qNeg mant else mant))
        | 'e' :: t =>
          let (eneg, t) :=
            match t with
            | '-' :: t2 => (true, t2)
            | '+' :: t2 => (false, t2)
            | _ => (false, t)
          let (eds, r3) := takeDigits t
          if eds = [] ∨ r3 ≠ [] then none
          else
            let p : ℚ := qOfInt (((10 : ℕ) ^ (digitsToNat eds) : ℕ) : ℤ)
            let v : ℚ := if eneg then qDiv mant p else qMul mant p
            some (.num (if neg then qNeg v else v))
        | _ => none

/-- Decimal digits of the fraction `r/b` (`0 ≤ r < b`); at most `fuel`
digits are emitted. -/
def fracDigits : ℕ → ℤ → ℤ → List Char
  | 0, _, _ => []
  | fuel + 1, r, b =>
    if r = 0 then []
    else
      let d := (10 * r).fdiv b
      Char.ofNat ('0'.toNat + d.toNat) :: fracDigits fuel (10 * r - d * b) b

/-- Decimal rendering of a rational whose denominator divides a power of ten
(the only rationals the pipeline renders); at most 40 fractional digits are
emitted.  Matches Rust's `Display` for `f64` on such values. -/
def ratToDecimalString (q : ℚ) : String :=
  if q.den = 1 then toString q.num
  else
    let sign := if q.num < 0 then "-" else ""
    let a : ℤ := (q.num.natAbs : ℤ)
    let b : ℤ := (q.den : ℤ)
    let ip := a.fdiv b
    sign ++ toString ip ++ "." ++ String.mk (fracDigits 40 (a - ip * b) b)

/-- Rust `Display` for `f64` (`{}`): no trailing `.0` on integral values. -/
def formatF64 : F64 → String
  | .nan => "NaN"
  | .inf true => "-inf"
  | .inf false => "inf"
  | .num q => ratToDecimalString q

/-- Model of `serde_json::Number`: an integer (stored exactly) or a float. -/
inductive JNum where
  | int (i : ℤ)
  | float (q : ℚ)
deriving DecidableEq, Repr

/-- Model of `serde_json::Value`. -/
inductive Json where
  | null
  | bool (b : Bool)
  | num (n : JNum)
  | str (s : String)
  | arr (items : List Json)
  | obj (fields : List (String × Json))
deriving Repr

namespace Json

/-- `Value::get(key)` on objects. -/
def getKey : Json → String → Option Json
  | .obj fields, key => (fields.find? (fun p => p.1 == key)).map (·.2)
  | _, _ => none

/-- `Value::as_str`. -/
def asStr : Json → Option String
  | .str s => some s
  | _ => none

/-- `Value::as_u64`: only integer-stored non-negative numbers. -/
def asU64 : Json → Option ℕ
  | .num (.int i) => if 0 ≤ i then some i.toNat else none
  | _ => none

/-- `Value::as_f64` on numbers (always succeeds for `serde_json`). -/
def numAsF64 : JNum → ℚ
  | .int i => (i : ℚ)
  | .float q => q

/-- `Value::as_array`. -/
def asArray : Json → Option (List Json)
  | .arr items => some items
  | _ => none

end Json

/-- Whitespace stripped from both ends of a character list. -/
def trimChars (cs : List Char) : List Char :=
  (((cs.dropWhile isWsCh).reverse).dropWhile isWsCh).reverse

/-- Rust `str::trim` (whitespace at both ends). -/
def strTrim (s : String) : String := String.mk (trimChars s.data)

/-- Rust `str::to_lowercase` (inputs are ASCII). -/
def strLower (s : String) : String := String.mk (s.data.map lowerCh)

/-- Substring occurrence on character lists. -/
def listContainsSub (needle : List Char) : List Char → Bool
  | [] => needle.isEmpty
  | c :: t => needle.isPrefixOf (c :: t) || listContainsSub needle t

/-- Rust `str::contains` on string needles. -/
def strContains (hay needle : String) : Bool :=
  listContainsSub needle.data hay.data

/-- Left-to-right non-overlapping replacement of `needle` (nonempty in every
use below) by `repl`; the fuel starts at the haystack length, which each
step strictly decreases, so it never runs out. -/
def replaceAllFuel (needle repl : List Char) : ℕ → List Char → List Char
  | 0, cs => cs
  | _ + 1, [] => []
  | fuel + 1, c :: rest =>
    if needle.isPrefixOf (c :: rest) then
      repl ++ replaceAllFuel needle repl fuel (rest.drop (needle.length - 1))
    else c :: replaceAllFuel needle repl fuel rest

/-- Rust `str::replace`. -/
def strReplace (s pat repl : String) : String :=
  String.mk (replaceAllFuel pat.data repl.data s.data.length s.data)

/-- Maximal non-whitespace runs of a character list
(`str::split_whitespace`); `acc` holds the reversed current run. -/
def splitWsChars : List Char → List Char → List (List Char)
  | [], acc => if acc.isEmpty then [] else [acc.reverse]
  | c :: rest, acc =>
    if isWsCh c then
      if acc.isEmpty then splitWsChars rest [] else acc.reverse :: splitWsChars rest []
    else splitWsChars rest (c :: acc)

/-- `str::split_whitespace` as a word list. -/
def splitWsWords (s : String) : List String :=
  (splitWsChars s.data []).map String.mk

/-- Words joined with single spaces (`join(" ")`). -/
def joinSpaceChars : List (List Char) → List Char
  | [] => []
  | [w] => w
  | w :: rest => w ++ ' ' :: joinSpaceChars rest

/-- String list joined with a separator (`Vec::join`). -/
def joinStrings (sep : String) : List String → String
  | [] => ""
  | [x] => x
  | x :: rest => x ++ sep ++ joinStrings sep rest

/-- Split at every `'.'`, keeping empty segments (`str::split('.')`). -/
def splitDotChars : List Char → List Char → List (List Char)
  | [], acc => [acc.reverse]
  | c :: rest, acc =>
    if c = '.' then acc.reverse :: splitDotChars rest []
    else splitDotChars rest (c :: acc)

/-! ## polars `DataFrame` model -/

instance instDecEqExcept {ε α : Type} [DecidableEq ε] [DecidableEq α] :
    DecidableEq (Except ε α) := fun x y =>
  match x, y with
  | .error e, .error f =>
    if h : e = f then isTrue (by rw [h])
    else isFalse (fun hh => by injection hh; exact h (by assumption))
  | .ok a, .ok b =>
    if h : a = b then isTrue (by rw [h])
    else isFalse (fun hh => by injection hh; exact h (by assumption))
  | .error _, .ok _ => isFalse (fun hh => Except.noConfusion hh)
  | .ok _, .error _ => isFalse (fun hh => Except.noConfusion hh)

/-- A typed polars column (`Series`): the pipeline only ever holds `str` and
`f64` columns. -/
inductive Col where
  | strCol (cells : List (Option String))
  | f64Col (cells : List (Option F64))
deriving DecidableEq, Repr

/-- `Series::len`. -/
def Col.len : Col → ℕ
  | .strCol cells => cells.length
  | .f64Col cells => cells.length

/-- A `DataFrame`: ordered columns with names. -/
abbrev DataFrame := List (String × Col)

namespace DataFrame

/-- `DataFrame::height` (polars takes the length of the first column). -/
def height (df : DataFrame) : ℕ :=
  match df with
  | [] => 0
  | (_, c) :: _ => c.len

/-- `DataFrame::column(name)`: first column with that name, if any. -/
def columnGet (df : DataFrame) (name : String) : Option Col :=
  (df.find? (fun p => p.1 == name)).map (·.2)

/-- Replace the first column named `name`, or append a new one (the
name-resolution part of `with_column`). -/
def replaceOrAppend : DataFrame → String → Col → DataFrame
  | [], name, c => [(name, c)]
  | (n0, c0) :: rest, name, c =>
    if n0 = name then (name, c) :: rest
    else (n0, c0) :: replaceOrAppend rest name c

/-- `DataFrame::with_column`: the new series must match the frame's height
(polars raises a shape error otherwise; a frame with no columns accepts any
series). -/
def withColumn (df : DataFrame) (name : String) (c : Col) : Except String DataFrame :=
  if df.isEmpty then .ok [(name, c)]
  else if c.len = df.height then .ok (replaceOrAppend df name c)
  else .error "ShapeError: with_column length mismatch"

/-- Vertical concatenation of two columns of the same dtype. -/
def vstackCol : Col → Col → Option Col
  | .strCol a, .strCol b => some (.strCol (a ++ b))
  | .f64Col a, .f64Col b => some (.f64Col (a ++ b))
  | _, _ => none

/-- `DataFrame::vstack`: schemas (names and dtypes, in order) must agree. -/
def vstack : DataFrame → DataFrame → Except String DataFrame
  | [], [] => .ok []
  | (n1, c1) :: t1, (n2, c2) :: t2 =>
    if n1 = n2 then
      match vstackCol c1 c2 with
      | some c =>
        match vstack t1 t2 with
        | .ok rest => .ok ((n1, c) :: rest)
        | .error e => .error e
      | none => .error "vstack: dtype mismatch"
    else .error "vstack: column name mismatch"
  | _, _ => .error "vstack: width mismatch"

/-- Rename the first column named `old` (no-op when absent). -/
def renameFirst : DataFrame → String → String → DataFrame
  | [], _, _ => []
  | (n, c) :: rest, old, new =>
    if n = old then (new, c) :: rest else (n, c) :: renameFirst rest old new

/-- `DataFrame::rename(old, new)` with the caller's `let _ =`: polars refuses
a rename that would duplicate an existing column name (the caller discards
that error), otherwise the first column named `old` is renamed. -/
def renameIgnoring (df : DataFrame) (old new : String) : DataFrame :=
  if df.any (fun p => p.1 == new) then df
  else renameFirst df old new

end DataFrame

/-! ## `JsonFlattener` (src/processor/json_flattener.rs) -/

/-- The flattener's per-item record (`HashMap<String, String>`), as an
association list with HashMap insert semantics. -/
abbrev Record := List (String × String)

def recordInsert (r : Record) (k v : String) : Record :=
  match r with
  | [] => [(k, v)]
  | (k0, v0) :: rest =>
    if k0 = k then (k, v) :: rest else (k0, v0) :: recordInsert rest k v

def recordGet (r : Record) (k : String) : Option String :=
  (r.find? (fun p => p.1 == k)).map (·.2)

/-- The `get_string` helper: `item.get(key).and_then(as_str).unwrap_or("")`. -/
def getString (item : Json) (key : String) : String :=
  ((item.getKey key).bind Json.asStr).getD ""

/-- Integral floats render without a decimal point (`(f as i64).to_string()`,
assuming the usual i64 range), otherwise `f.to_string()`. -/
def formatParsedNumber : F64 → String
  | .num q => if q.den = 1 then toString q.num else ratToDecimalString q
  | v => formatF64 v

/-- The `get_number` helper: JSON numbers keep their value (`as_f64` always
succeeds in serde_json, so the fallback `n.to_string()` branch is dead);
JSON strings are parsed as `f64`; anything else is `None`. -/
def getNumber (item : Json) (key : String) : Option String :=
  (item.getKey key).bind fun v =>
    match v with
    | .num n => some (formatParsedNumber (.num (Json.numAsF64 n)))
    | .str s => (parseF64 s).map formatParsedNumber
    | _ => none

/-- The record computed by `JsonFlattener::extract_fields_directly` (the
function body up to its final `Ok(record)`). -/
def extract_record (item : Json) : Record :=
  let identifier : Option String :=
    match (item.getKey "product_id").bind Json.asU64 with
    | some pid => some (toString pid)
    | none =>
    match (item.getKey "productID").bind Json.asStr with
    | some pid => some pid
    | none =>
      let sku := getString item "sku"
      if sku ≠ "" then some sku
      else
        let id := getString item "id"
        if id ≠ "" then some id
        else
          let variant := getString item "variantTitleSlug"
          if variant ≠ "" then some variant else none
  let record : Record := []
  let record :=
    match identifier with
    | some id => recordInsert record "product_id" id
    | none => record
  let name :=
    let n := getString item "name"
    if n ≠ "" then n
    else
      let n := getString item "title"
      if n ≠ "" then n else getString item "productName"
  let record := if name ≠ "" then recordInsert record "name" name else record
  let cost_price :=
    (getNumber item "cost_price") <|>
    (getNumber item "special_price") <|>
    (getNumber item "discountedPrice") <|>
    (getNumber item "discounted_price") <|>
    (getNumber item "price") <|>
    ((((item.getKey "groupRanges").bind Json.asArray).bind List.head?).bind
      (fun firstRange => (firstRange.getKey "discountedPrice").bind Json.asStr))
  let record :=
    match cost_price with
    | some c => recordInsert record "cost_price" c
    | none => record
  let mrp :=
    (getNumber item "mrp") <|>
    (getNumber item "product_price") <|>
    (getNumber item "actualPrice") <|>
    (getNumber item "actual_price") <|>
    (getNumber item "originalPrice") <|>
    (getNumber item "original_price") <|>
    (((((item.getKey "inventories").bind Json.asArray).bind List.head?).bind
      (fun firstInv => (firstInv.getKey "dcImsMrp").bind Json.asU64)).map toString)
  let record :=
    match mrp with
    | some m => recordInsert record "mrp" m
    | none => record
  let sku :=
    let direct := getString item "sku"
    if direct ≠ "" then direct
    else
      ((((item.getKey "attributes").bind Json.asArray).bind
        (fun arr => arr.find? (fun attr =>
          (((attr.getKey "key").bind Json.asStr).map (fun k => k == "sku")).getD false))).bind
        (fun attr => (attr.getKey "value").bind Json.asStr)).getD ""
  let record :=
    if sku ≠ "" then recordInsert record "sku" sku
    else
      match identifier with
      | some id => recordInsert record "sku" ("SKU_" ++ id)
      | none => record
  let discount :=
    (getNumber item "sku_percent_off") <|>
    ((parseF64 (getString item "sku_percent_off")).map formatF64) <|>
    (let s := getString item "sku_percent_off"
     if s ≠ "" then some s else none) <|>
    (getNumber item "discount_percentage") <|>
    (getNumber item "discountPercentage") <|>
    (if (item.getKey "productID").isSome then some "0.00" else none)
  let record :=
    match discount with
    | some d => recordInsert record "sku_percent_off" d
    | none => record
  let units_of_mass :=
    let direct := getString item "units_of_mass"
    if direct ≠ "" then direct
    else
      let unit := getString item "unit"
      if unit ≠ "" then unit
      else
        let baseUnit := getString item "baseUnit"
        if baseUnit ≠ "" then baseUnit
        else
          ((((item.getKey "attributes").bind Json.asArray).bind
            (fun arr => arr.find? (fun attr =>
              (((attr.getKey "key").bind Json.asStr).map (fun k => k == "baseUnit")).getD false))).bind
            (fun attr => (attr.getKey "value").bind Json.asStr)).getD "N/A"
  let record := recordInsert record "units_of_mass" units_of_mass
  let category_names :=
    match (item.getKey "categories").bind Json.asArray with
    | some categories =>
      joinStrings ", " (categories.filterMap (fun cat =>
        ((cat.getKey "category_name").bind Json.asStr).map (fun s => strLower (strTrim s))))
    | none =>
    match (item.getKey "productCategory").bind Json.asArray with
    | some productCategories =>
      joinStrings ", " (productCategories.filterMap (fun cat =>
        (((cat.getKey "category").bind (fun c => c.getKey "name")).bind Json.asStr).map strTrim))
    | none =>
    match (item.getKey "category_section").bind Json.asStr with
    | some categorySection => categorySection
    | none =>
      let cat := getString item "category"
      if cat ≠ "" then cat
      else
        let cat := getString item "categoryName"
        if cat ≠ "" then cat else getString item "category_name"
  let record :=
    if category_names ≠ "" then recordInsert record "category_name" category_names
    else record
  record

/-- `JsonFlattener::extract_fields_directly`; the source signature is
`Result<HashMap<String, String>>` but the body has no error path — it always
ends in `Ok(record)`. -/
def extract_fields_directly (item : Json) : Except String Record :=
  .ok (extract_record item)

/-- The fixed output schema of `records_to_dataframe`. -/
def flat_fields : List String :=
  ["cost_price", "mrp", "name", "sku", "product_id", "sku_percent_off",
   "category_name", "units_of_mass"]

/-- The table built from a nonempty record list: one `str` column per fixed
field, missing keys becoming `""` (`unwrap_or_default`). -/
def flat_df_of (records : List Record) : DataFrame :=
  flat_fields.map (fun f =>
    (f, Col.strCol (records.map (fun r => some ((recordGet r f).getD "")))))

/-- `JsonFlattener::records_to_dataframe`: an empty record list gives
`DataFrame::empty()`; otherwise `flat_df_of`.  `DataFrame::new`'s checks
(distinct names, equal lengths) hold by construction. -/
def records_to_dataframe (records : List Record) : Except String DataFrame :=
  if records.isEmpty then .ok []
  else .ok (flat_df_of records)

/-- The record-collection loop shared by both flatten entry points: `Ok`
extractions are kept, `Err` ones are skipped (and counted/logged). -/
def collect_records (json_data : List Json) : List Record :=
  json_data.foldr (fun item acc =>
    match extract_fields_directly item with
    | .ok r => r :: acc
    | .error _ => acc) []

/-- `JsonFlattener::flatten_to_dataframe`. -/
def flatten_to_dataframe (json_data : List Json) : Except String DataFrame :=
  records_to_dataframe (collect_records json_data)

/-- The batch loop of `flatten_to_dataframe_batched`: per batch, extract
records and keep the batch's DataFrame when it has any records. -/
def collect_batch_dfs : List (Except String (List Json)) → Except String (List DataFrame)
  | [] => .ok []
  | b :: rest => do
    let batch ← b
    let records := collect_records batch
    let restDfs ← collect_batch_dfs rest
    if records.isEmpty then .ok restDfs
    else do
      let df ← records_to_dataframe records
      .ok (df :: restDfs)

/-- `JsonFlattener::flatten_to_dataframe_batched`: flatten each batch, then
combine: none → empty frame, one → itself, many → left fold of `vstack`. -/
def flatten_to_dataframe_batched (batches : List (Except String (List Json))) :
    Except String DataFrame := do
  let dfs ← collect_batch_dfs batches
  match dfs with
  | [] => .ok []
  | [df] => .ok df
  | df :: rest => rest.foldlM (fun combined d => combined.vstack d) df

/-- The batch-size policy of the driver (src/main.rs). -/
def batch_size_policy (total_products : ℕ) : ℕ :=
  if total_products ≤ 500 then total_products
  else if total_products ≤ 5000 then 500
  else if total_products ≤ 50000 then 2000
  else 5000

/-! ## `FieldClassifier` (src/processor/field_classifier.rs) -/

/-- The alias table built in `FieldClassifier::new`, in insertion order with
the two repeated inserts (`price`, `id`, with identical values) collapsed as
a `HashMap` does.  The `HashMap`'s iteration order is arbitrary; no theorem
below depends on the order of this list. -/
def field_mappings : List (String × String) :=
  [("cost_price", "cost_price"), ("mrp", "mrp"), ("name", "name"),
   ("sku", "sku"), ("sku_percent_off", "discount"), ("category_name", "category"),
   ("id", "product_id"), ("dcImsMrp", "mrp"), ("discountedPrice", "cost_price"),
   ("productCategory", "category"), ("productID", "product_id"),
   ("originalPrice", "mrp"), ("price", "cost_price"), ("category_section", "category"),
   ("product_price", "mrp"), ("special_price", "cost_price"),
   ("selling_price", "cost_price"), ("product_name", "name"), ("item_name", "name"),
   ("title", "name"), ("product_id", "product_id"), ("item_id", "product_id"),
   ("discount", "discount"), ("discount_percent", "discount"),
   ("percent_off", "discount"), ("category", "category"),
   ("product_category", "category"), ("item_category", "category")]

/-- `FieldClassifier::normalize_field_name`. -/
def normalize_field_name (name : String) : String :=
  strReplace (strReplace (strReplace (strLower name) "_" "") "-" "") " " ""

/-- `FieldClassifier::looks_like_price`. -/
def looks_like_price (value : String) : Bool :=
  strContains value "$" || strContains value "₹" || strContains value "€" ||
  strContains value "£" ||
  (strContains value "." && (value.data.filter (fun c => c.isDigit)).length > 0) ||
  (parseF64 value).isSome

/-- `FieldClassifier::looks_like_name` (`len()` is the UTF-8 byte length). -/
def looks_like_name (value : String) : Bool :=
  value.utf8ByteSize > 3 && value.data.any (fun c => c.isAlpha) &&
  (splitWsWords value).length ≥ 2

/-- `FieldClassifier::looks_like_discount`. -/
def looks_like_discount (value : String) : Bool :=
  strContains value "%" || strContains value "off" || strContains value "discount" ||
  (match parseF64 value with
   | some f => f.le (.num 100)
   | none => false)

/-- `FieldClassifier::looks_like_category`. -/
def looks_like_category (value : String) : Bool :=
  value.utf8ByteSize < 50 &&
  value.data.all (fun c => c.isAlpha || c.isWhitespace) &&
  !strContains value "."

/-- `FieldClassifier::classify_by_content`. -/
def classify_by_content (field_name : String) (sample_values : List String) : String :=
  let field_lower := strLower field_name
  if strContains field_lower "sku" && !strContains field_lower "percent" &&
      !strContains field_lower "off" then "sku"
  else if strContains field_lower "price" || strContains field_lower "cost" ||
      strContains field_lower "mrp" then "cost_price"
  else if strContains field_lower "name" || strContains field_lower "title" ||
      (strContains field_lower "product" && !strContains field_lower "id") then "name"
  else if strContains field_lower "id" || strContains field_lower "product_id" then
    "product_id"
  else if strContains field_lower "discount" || strContains field_lower "off" ||
      strContains field_lower "percent" then "discount"
  else if strContains field_lower "category" || strContains field_lower "type" ||
      strContains field_lower "class" then "category"
  else
    let sample_str := strLower ((sample_values.head?).getD "")
    if looks_like_price sample_str then "cost_price"
    else if looks_like_discount sample_str then "discount"
    else if looks_like_name sample_str then "name"
    else if looks_like_category sample_str then "category"
    else field_name

/-- `FieldClassifier::classify_field` (the source's `Result` is always
`Ok`). -/
def classify_field (field_name : String) (sample_values : List String) : String :=
  let normalized_field := normalize_field_name field_name
  match field_mappings.find? (fun p => normalize_field_name p.1 == normalized_field) with
  | some p => p.2
  | none =>
  match field_mappings.find? (fun p =>
      let np := normalize_field_name p.1
      strContains normalized_field np || strContains np normalized_field) with
  | some p => p.2
  | none =>
    if !sample_values.isEmpty then
      let classification := classify_by_content field_name sample_values
      if classification ≠ field_name then classification else field_name
    else field_name

/-- The sample values `map_to_canonical_schema` inspects: for `str` columns,
the first five non-null values; otherwise the first five values
debug-formatted (the exact rendering of `{:?}` on `AnyValue` does not affect
any theorem below). -/
def sample_values_of (c : Col) : List String :=
  match c with
  | .strCol cells => (cells.filterMap id).take 5
  | .f64Col cells => (cells.take 5).map (fun cell =>
      match cell with
      | none => "null"
      | some v => formatF64 v)

/-- `FieldClassifier::map_to_canonical_schema`: iterate over the original
column names, classify each (first match by name in the current frame), and
rename when the canonical name differs, ignoring rename errors. -/
def map_to_canonical_schema (df : DataFrame) : DataFrame :=
  (df.map (·.1)).foldl (fun acc col_name =>
    match acc.columnGet col_name with
    | none => acc
    | some series =>
      let sample_values := sample_values_of series
      let canonical_name := classify_field col_name sample_values
      if canonical_name ≠ col_name then DataFrame.renameIgnoring acc col_name canonical_name
      else acc) df

/-! ## `RuleNormalizer` (src/processor/rule_normalizer.rs)

The five `unit_patterns` regexes, the promotional-suffix regex and the
parenthetical-descriptor regexes are compiled by hand into matchers over
character lists, following the `regex` crate's leftmost-first semantics:
the scan tries every start position left to right, and at a position the
alternatives of an alternation are tried in written order, continuing with
the rest of the pattern (so a shorter unit word wins unless the rest of the
pattern forces a longer alternative). -/

/-- Case-insensitive literal match: original consumed characters and rest. -/
def matchCI : List Char → List Char → Option (List Char × List Char)
  | [], rest => some ([], rest)
  | _ :: _, [] => none
  | w :: ws, c :: rest =>
    if lowerCh c = lowerCh w then
      (matchCI ws rest).map (fun p => (c :: p.1, p.2))
    else none

/-- The weight/volume unit alternation, in the regexes' written order. -/
def unit_words : List (List Char) :=
  (["gm", "g", "kg", "ml", "l", "gram", "grams", "kilogram", "kilograms",
    "liter", "liters", "milliliter", "milliliters"]).map String.data

/-- All ways the unit-word alternation can match a prefix, in preference
order. -/
def unitWordCandidates (cs : List Char) : List (List Char × List Char) :=
  unit_words.filterMap (fun w => matchCI w cs)

/-- `\d+(?:\.\d+)?`: greedy digits with an optional fractional part (taken
only when a digit follows the dot). -/
def matchNum (cs : List Char) : Option (List Char × List Char) :=
  let (ds, r1) := takeDigits cs
  if ds = [] then none
  else
    match r1 with
    | '.' :: t =>
      let (fs, r2) := takeDigits t
      if fs = [] then some (ds, r1) else some (ds ++ '.' :: fs, r2)
    | _ => some (ds, r1)

/-- `\d+(?:\.\d+)?\s*<unit-word>`: candidate matches in preference order. -/
def numUnitCandidates (cs : List Char) : List (List Char × List Char) :=
  match matchNum cs with
  | none => []
  | some (numCon, r1) =>
    let ws := r1.takeWhile isWsCh
    let r2 := r1.dropWhile isWsCh
    (unitWordCandidates r2).map (fun p => (numCon ++ ws ++ p.1, p.2))

/-- `\s*\)`. -/
def closeParen (cs : List Char) : Option (List Char) :=
  match cs.dropWhile isWsCh with
  | ')' :: r => some r
  | _ => none

/-- The optional range tail `\s*-\s*\d+(?:\.\d+)?\s*<unit-word>` of the
first unit pattern (the inner dash is ASCII only). -/
def rangeCandidates (cs : List Char) : List (List Char × List Char) :=
  let ws1 := cs.takeWhile isWsCh
  match cs.dropWhile isWsCh with
  | '-' :: r1 =>
    let ws2 := r1.takeWhile isWsCh
    let r2 := r1.dropWhile isWsCh
    (numUnitCandidates r2).map (fun p => (ws1 ++ '-' :: (ws2 ++ p.1), p.2))
  | _ => []

/-- `\s*[-–]?\s*\(` — the shared opening of the two parenthetical
patterns. -/
def openParenAfterOptDash (cs : List Char) : Option (List Char) :=
  let cs1 := cs.dropWhile isWsCh
  let cs2 :=
    match cs1 with
    | c :: t => if isDashCh c then t else cs1
    | [] => cs1
  match cs2.dropWhile isWsCh with
  | '(' :: r => some r
  | _ => none

/-- Unit pattern 1 (parenthetical weight/volume, optional range), matched at
one position: returns (rest after the match, capture-group characters). -/
def p1MatchHere (cs : List Char) : Option (List Char × List Char) :=
  match openParenAfterOptDash cs with
  | none => none
  | some cs4 =>
    let cs5 := cs4.dropWhile isWsCh
    (numUnitCandidates cs5).findSome? (fun cand =>
      match (rangeCandidates cand.2).findSome? (fun rcand =>
          (closeParen rcand.2).map (fun r3 => (r3, cand.1 ++ rcand.1))) with
      | some res => some res
      | none => (closeParen cand.2).map (fun r2 => (r2, cand.1)))

/-- `pack\s+of\s+\d+`. -/
def packOfMatch (cs : List Char) : Option (List Char × List Char) :=
  match matchCI "pack".data cs with
  | none => none
  | some (c1, r1) =>
    let ws1 := r1.takeWhile isWsCh
    if ws1 = [] then none
    else
      match matchCI "of".data (r1.dropWhile isWsCh) with
      | none => none
      | some (c2, r3) =>
        let ws2 := r3.takeWhile isWsCh
        if ws2 = [] then none
        else
          let (ds, r5) := takeDigits (r3.dropWhile isWsCh)
          if ds = [] then none
          else some (c1 ++ ws1 ++ c2 ++ ws2 ++ ds, r5)

/-- `half\s+dozen`. -/
def halfDozenMatch (cs : List Char) : Option (List Char × List Char) :=
  match matchCI "half".data cs with
  | none => none
  | some (c1, r1) =>
    let ws := r1.takeWhile isWsCh
    if ws = [] then none
    else
      match matchCI "dozen".data (r1.dropWhile isWsCh) with
      | none => none
      | some (c2, r2) => some (c1 ++ ws ++ c2, r2)

/-- The count words shared by patterns 2 and 3, in written order. -/
def count_words : List (List Char) :=
  (["piece", "pieces", "bundle", "bundles", "dozen"]).map String.data

/-- `\d+\s+(piece|pieces|bundle|bundles|dozen)` candidates. -/
def numCountCandidates (cs : List Char) : List (List Char × List Char) :=
  let (ds, r1) := takeDigits cs
  if ds = [] then []
  else
    let ws := r1.takeWhile isWsCh
    if ws = [] then []
    else
      let r2 := r1.dropWhile isWsCh
      (count_words.filterMap (fun w => matchCI w r2)).map
        (fun p => (ds ++ ws ++ p.1, p.2))

/-- `\d+\s+(…|half\s+dozen)` candidates — pattern 2 keeps `half dozen`
inside the digit-prefixed alternation. -/
def numCountCandidatesWithHalf (cs : List Char) : List (List Char × List Char) :=
  let (ds, r1) := takeDigits cs
  if ds = [] then []
  else
    let ws := r1.takeWhile isWsCh
    if ws = [] then []
    else
      let r2 := r1.dropWhile isWsCh
      ((count_words.filterMap (fun w => matchCI w r2)) ++
        (halfDozenMatch r2).toList).map (fun p => (ds ++ ws ++ p.1, p.2))

/-- Unit pattern 2 (parenthetical count/pack). -/
def p2MatchHere (cs : List Char) : Option (List Char × List Char) :=
  match openParenAfterOptDash cs with
  | none => none
  | some cs4 =>
    let cs5 := cs4.dropWhile isWsCh
    ((packOfMatch cs5).toList ++ numCountCandidatesWithHalf cs5).findSome?
      (fun cand => (closeParen cand.2).map (fun r2 => (r2, cand.1)))

/-- Unit pattern 3 (dash-prefixed count): nothing follows the capture group
but `\s*`, so the first alternative to match wins. -/
def p3MatchHere (cs : List Char) : Option (List Char × List Char) :=
  match cs.dropWhile isWsCh with
  | c :: cs2 =>
    if isDashCh c then
      let cs3 := cs2.dropWhile isWsCh
      match ((packOfMatch cs3).toList ++ numCountCandidates cs3 ++
          (halfDozenMatch cs3).toList).head? with
      | some (cap, r) => some (r.dropWhile isWsCh, cap)
      | none => none
    else none
  | [] => none

/-- Unit pattern 4 (dash-prefixed weight/volume): again only `\s*` follows
the capture group. -/
def p4MatchHere (cs : List Char) : Option (List Char × List Char) :=
  match cs.dropWhile isWsCh with
  | c :: cs2 =>
    if isDashCh c then
      let cs3 := cs2.dropWhile isWsCh
      match (numUnitCandidates cs3).head? with
      | some (cap, r) => some (r.dropWhile isWsCh, cap)
      | none => none
    else none
  | [] => none

/-- Unit pattern 5 (trailing weight/volume): `\s+(…)\s*$`, so the rest of
the string after the unit must be whitespace, all of it consumed. -/
def p5MatchHere (cs : List Char) : Option (List Char × List Char) :=
  let ws := cs.takeWhile isWsCh
  if ws = [] then none
  else
    (numUnitCandidates (cs.dropWhile isWsCh)).findSome? (fun cand =>
      if cand.2.all isWsCh then some (([] : List Char), cand.1) else none)

/-- Leftmost scan of a single-position matcher: returns (text before the
match, rest after the match, capture). -/
def scanPattern (matchHere : List Char → Option (List Char × List Char)) :
    List Char → Option (List Char × List Char × List Char)
  | [] => (matchHere []).map (fun p => ([], p.1, p.2))
  | c :: cs =>
    match matchHere (c :: cs) with
    | some (rest, cap) => some ([], rest, cap)
    | none => (scanPattern matchHere cs).map (fun p => (c :: p.1, p.2.1, p.2.2))

/-- The `unit_patterns` vector, in source order. -/
def unit_pattern_list : List (List Char → Option (List Char × List Char)) :=
  [p1MatchHere, p2MatchHere, p3MatchHere, p4MatchHere, p5MatchHere]

/-- The pattern loop of `normalize_name_and_extract_units`: the first
pattern that matches yields the trimmed capture as the unit and the name
with the match span removed. -/
def tryUnitPatternsAux :
    List (List Char → Option (List Char × List Char)) → List Char →
    Option (String × List Char)
  | [], _ => none
  | m :: ms, cs =>
    match scanPattern m cs with
    | some (pre, rest, cap) => some (String.mk (trimChars cap), pre ++ rest)
    | none => tryUnitPatternsAux ms cs

/-- One parenthetical-descriptor match (`description_regex` /
`non_unit_desc_regex`).  Each alternative of the alternation must be
followed by `\s*\)` and none contains `)`, so the regex matches exactly when
the content between the parentheses is a nonempty alphabetic/whitespace run
(the specific vocabulary words are subsumed by the `[a-zA-Z\s]+` catch-all);
the `non_unit` variant's catch-all `[a-zA-Z\s]*[a-zA-Z]` additionally
requires an alphabetic character. -/
def descMatchHere (needAlpha : Bool) (cs : List Char) : Option (List Char) :=
  match cs.dropWhile isWsCh with
  | '(' :: cs2 =>
    let run := cs2.takeWhile (fun c => isAlphaCh c || isWsCh c)
    match cs2.dropWhile (fun c => isAlphaCh c || isWsCh c) with
    | ')' :: r2 =>
      if run ≠ [] ∧ (!needAlpha || run.any isAlphaCh) then some r2 else none
    | _ => none
  | _ => none

def scanDesc (needAlpha : Bool) : List Char → Option (List Char × List Char)
  | [] => none
  | c :: cs =>
    match descMatchHere needAlpha (c :: cs) with
    | some rest => some ([], rest)
    | none => (scanDesc needAlpha cs).map (fun p => (c :: p.1, p.2))

/-- `Regex::replace` of the first descriptor match with `""`. -/
def descStrip (needAlpha : Bool) (cs : List Char) : List Char :=
  match scanDesc needAlpha cs with
  | some (pre, rest) => pre ++ rest
  | none => cs

/-- `promo_regex` (`\s*\|\s*.*$`) replaced by `""`: everything from the
whitespace preceding the first `|` to the end of the string is removed.
(Assumes the name contains no newline, which `.` would not cross.) -/
def promoStrip (cs : List Char) : List Char :=
  if cs.contains '|' then
    ((cs.takeWhile (fun c => c ≠ '|')).reverse.dropWhile isWsCh).reverse
  else cs

/-- `str::split_whitespace().join(" ")` collapse. -/
def collapseWs (s : String) : String :=
  joinStrings " " (splitWsWords s)

/-- The per-row body of `normalize_name_and_extract_units`: promotional
suffix, unit-pattern loop, descriptor strip, whitespace collapse and
lower-casing.  Returns (cleaned name, units_of_mass). -/
def process_name (name : String) : String × String :=
  let cleaned := promoStrip name.data
  let (unit_found, cleaned) :=
    match tryUnitPatternsAux unit_pattern_list cleaned with
    | some p => p
    | none => ("N/A", cleaned)
  let cleaned :=
    if unit_found = "N/A" then descStrip false cleaned else descStrip true cleaned
  (strLower (collapseWs (String.mk cleaned)), unit_found)

/-- `RuleNormalizer::normalize_name_and_extract_units`. -/
def normalize_name_and_extract_units (df : DataFrame) : Except String DataFrame := do
  let nameCol ←
    match df.columnGet "name" with
    | some c => Except.ok c
    | none => Except.error "ColumnNotFound: name"
  let cells ←
    match nameCol with
    | .strCol cells => Except.ok cells
    | _ => Except.error "SchemaMismatch: str() on a non-string name column"
  let pairs := cells.map (fun cell =>
    match cell with
    | some name => process_name name
    | none => ("", "N/A"))
  let df ← df.withColumn "name" (.strCol (pairs.map (fun p => some p.1)))
  df.withColumn "units_of_mass" (.strCol (pairs.map (fun p => some p.2)))

/-- `RuleNormalizer::normalize_price_column`: strip `$` and `,`, trim, parse
as f64 (`None` when unparseable).  The source calls `.str().unwrap()` on the
column, which panics when the column is no longer a string column, and
iterates only the non-null values. -/
def normalize_price_column (df : DataFrame) (col_name : String) :
    Except String DataFrame :=
  match df.columnGet col_name with
  | none => .ok df
  | some (.f64Col _) =>
    .error ("panicked: str() unwrap on non-string column " ++ col_name)
  | some (.strCol cells) =>
    let normalized : List (Option F64) := (cells.filterMap id).map (fun s =>
      parseF64 (strTrim (strReplace (strReplace s "$" "") "," "")))
    df.withColumn col_name (.f64Col normalized)

/-- `RuleNormalizer::normalize_string_column` (trim + lower-case). -/
def normalize_string_column (df : DataFrame) (col_name : String) :
    Except String DataFrame :=
  match df.columnGet col_name with
  | none => .ok df
  | some (.f64Col _) =>
    .error ("panicked: str() unwrap on non-string column " ++ col_name)
  | some (.strCol cells) =>
    let normalized : List String := (cells.filterMap id).map (fun s =>
      strLower (strTrim s))
    df.withColumn col_name (.strCol (normalized.map some))

/-- The first-number regex `(\d+(?:\.\d+)?)` of
`normalize_discount_column`. -/
def findFirstNumber : List Char → Option (List Char)
  | [] => none
  | c :: rest =>
    if c.isDigit then (matchNum (c :: rest)).map (·.1)
    else findFirstNumber rest

/-- `RuleNormalizer::normalize_discount_column`. -/
def normalize_discount_column (df : DataFrame) (col_name : String) :
    Except String DataFrame :=
  match df.columnGet col_name with
  | none => .ok df
  | some (.f64Col _) =>
    .error ("panicked: str() unwrap on non-string column " ++ col_name)
  | some (.strCol cells) =>
    let normalized : List (Option F64) := (cells.filterMap id).map (fun s =>
      let cleaned := strTrim (strReplace (strReplace (strReplace (strReplace
        (strReplace (strLower s) "%" "") "percent" "") "off" "") "discount" "")
        "sale" "")
      match findFirstNumber cleaned.data with
      | some numStr => parseF64 (String.mk numStr)
      | none => parseF64 cleaned)
    df.withColumn col_name (.f64Col normalized)

/-- The discount derivation of `calculate_missing_discounts` when the
existing discount is absent or NaN. -/
def backfill_calc (cost mrp : Option F64) : Option F64 :=
  match cost, mrp with
  | some c, some m =>
    if (F64.num 0).lt m && c.lt m then
      let discount_percentage := ((m.sub c).div m).mul (.num 100)
      some (((discount_percentage.mul (.num 100)).roundAway).div (.num 100))
    else some (.num 0)
  | _, _ => none

/-- The per-row rule of `calculate_missing_discounts`: keep a non-NaN
existing discount, otherwise derive from the prices. -/
def backfill_row (existing : Option F64) (cost mrp : Option F64) : Option F64 :=
  match existing with
  | some d => if !d.isNan then some d else backfill_calc cost mrp
  | none => backfill_calc cost mrp

/-- `RuleNormalizer::calculate_missing_discounts`: requires all three
columns; `f64()?` fails on a non-float column. -/
def calculate_missing_discounts (df : DataFrame) : Except String DataFrame :=
  match df.columnGet "cost_price", df.columnGet "mrp", df.columnGet "discount" with
  | some cpCol, some mrpCol, some dCol =>
    match cpCol, mrpCol, dCol with
    | .f64Col cost_prices, .f64Col mrps, .f64Col discounts =>
      let calculated := (discounts.zip (cost_prices.zip mrps)).map
        (fun p => backfill_row p.1 p.2.1 p.2.2)
      df.withColumn "discount" (.f64Col calculated)
    | _, _, _ => .error "SchemaMismatch: f64() on a non-float column"
  | _, _, _ => .ok df

/-- `RuleNormalizer::normalize_dataframe`: the sequence of `?`-propagated
steps, written as an explicit bind chain. -/
def normalize_dataframe (df : DataFrame) : Except String DataFrame :=
  (normalize_price_column df "cost_price").bind (fun df =>
  (normalize_price_column df "mrp").bind (fun df =>
  (normalize_name_and_extract_units df).bind (fun df =>
  (if (df.columnGet "category").isSome then normalize_string_column df "category"
   else .ok df).bind (fun df =>
  (if (df.columnGet "discount").isSome then normalize_discount_column df "discount"
   else .ok df).bind (fun df =>
  calculate_missing_discounts df)))))

/-! ## `UnifiedFetcher` (src/fetcher/unified_fetcher.rs) -/

/-- The observable outcome of one page request: transport failure
(`fetch_with_get`/`fetch_with_post` error), JSON decode failure, or a parsed
body. -/
inductive PageResp where
  | httpErr
  | jsonErr
  | ok (data : Json)

/-- The slice of `ApiConfig` that `extract_products` consults. -/
structure FetchConfig where
  data_path : Option String

/-- The loop of `UnifiedFetcher::extract_by_path` (path parts kept as
character lists). -/
def extract_by_path_go : List (List Char) → Json → Except String (List Json)
  | [], current => .ok ((current.asArray).getD [])
  | part :: rest, current =>
    if "[]".data.isSuffixOf part then
      let field := String.mk (part.take (part.length - 2))
      match (current.getKey field).bind Json.asArray with
      | some array => .ok array
      | none => .ok []
    else extract_by_path_go rest ((current.getKey (String.mk part)).getD .null)

def extract_by_path (data : Json) (path : String) : Except String (List Json) :=
  extract_by_path_go (splitDotChars path.data []) data

/-- `UnifiedFetcher::extract_by_common_patterns`. -/
def extract_by_common_patterns (data : Json) : Except String (List Json) :=
  match data.asArray with
  | some products_array => .ok products_array
  | none =>
  match (data.getKey "data").bind Json.asArray with
  | some data_array =>
    .ok (data_array.foldl (fun all_products item =>
      match (item.getKey "l2_products").bind Json.asArray with
      | some l2 => all_products ++ l2
      | none =>
        match (item.getKey "krave_mart_products").bind Json.asArray with
        | some km => all_products ++ km
        | none => all_products) [])
  | none =>
  match (data.getKey "products").bind Json.asArray with
  | some products => .ok products
  | none =>
  match (data.getKey "items").bind Json.asArray with
  | some items => .ok items
  | none => .ok []

/-- `UnifiedFetcher::extract_products`. -/
def extract_products (cfg : FetchConfig) (data : Json) : Except String (List Json) :=
  match cfg.data_path with
  | some path => extract_by_path data path
  | none => extract_by_common_patterns data

/-- The GET pagination loop (`fetch_get_paginated`), with an attempt counter
added for observation.  The state is (page, consecutive_empty_pages,
accumulated products); the loop breaks when `page > 50`, or when the empty
counter would reach 2 after a failed or empty page.  The fuel argument only
bounds the recursion; started at 51 with `page = 1` it can never run out
before the `page > 50` cap fires, so the function is the source loop. -/
def fetch_get_pages (cfg : FetchConfig) (resp : ℕ → PageResp) :
    ℕ → ℕ → ℕ → List Json → ℕ → Except String (List Json × ℕ)
  | 0, _, _, acc, att => .ok (acc, att)
  | fuel + 1, page, cnt, acc, att =>
    if page > 50 then .ok (acc, att)
    else
      match resp page with
      | .httpErr =>
        if cnt + 1 ≥ 2 then .ok (acc, att + 1)
        else fetch_get_pages cfg resp fuel (page + 1) (cnt + 1) acc (att + 1)
      | .jsonErr =>
        if cnt + 1 ≥ 2 then .ok (acc, att + 1)
        else fetch_get_pages cfg resp fuel (page + 1) (cnt + 1) acc (att + 1)
      | .ok data =>
        match extract_products cfg data with
        | .error e => .error e
        | .ok products =>
          if products.isEmpty then
            if cnt + 1 ≥ 2 then .ok (acc, att + 1)
            else fetch_get_pages cfg resp fuel (page + 1) (cnt + 1) acc (att + 1)
          else fetch_get_pages cfg resp fuel (page + 1) 0 (acc ++ products) (att + 1)

/-- `UnifiedFetcher::fetch_get_paginated`: 1-based pages, cap 50,
consecutive-empty threshold 2. -/
def fetch_get_paginated (cfg : FetchConfig) (resp : ℕ → PageResp) :
    Except String (List Json × ℕ) :=
  fetch_get_pages cfg resp 51 1 0 [] 0

/-- The POST pagination loop (`fetch_post_paginated`): 0-based pages and the
cap check is `page >= 50`. -/
def fetch_post_pages (cfg : FetchConfig) (resp : ℕ → PageResp) :
    ℕ → ℕ → ℕ → List Json → ℕ → Except String (List Json × ℕ)
  | 0, _, _, acc, att => .ok (acc, att)
  | fuel + 1, page, cnt, acc, att =>
    if page ≥ 50 then .ok (acc, att)
    else
      match resp page with
      | .httpErr =>
        if cnt + 1 ≥ 2 then .ok (acc, att + 1)
        else fetch_post_pages cfg resp fuel (page + 1) (cnt + 1) acc (att + 1)
      | .jsonErr =>
        if cnt + 1 ≥ 2 then .ok (acc, att + 1)
        else fetch_post_pages cfg resp fuel (page + 1) (cnt + 1) acc (att + 1)
      | .ok data =>
        match extract_products cfg data with
        | .error e => .error e
        | .ok products =>
          if products.isEmpty then
            if cnt + 1 ≥ 2 then .ok (acc, att + 1)
            else fetch_post_pages cfg resp fuel (page + 1) (cnt + 1) acc (att + 1)
          else fetch_post_pages cfg resp fuel (page + 1) 0 (acc ++ products) (att + 1)

/-- `UnifiedFetcher::fetch_post_paginated`. -/
def fetch_post_paginated (cfg : FetchConfig) (resp : ℕ → PageResp) :
    Except String (List Json × ℕ) :=
  fetch_post_pages cfg resp 51 0 0 [] 0

/-- An empty-or-failed page attempt, as the termination rule counts them:
a transport/decode failure, or a body whose item extraction is empty. -/
def isEmptyOrFailed (cfg : FetchConfig) (r : PageResp) : Bool :=
  match r with
  | .httpErr => true
  | .jsonErr => true
  | .ok data =>
    match extract_products cfg data with
    | .ok products => products.isEmpty
    | .error _ => false

/-- Round to two decimals, `round(x, 2)`, with rounding half away from
zero. -/
def qRound2 (x : ℚ) : ℚ :=
  qDiv (qOfInt (F64.roundQ (qMul x (100 : ℚ)))) (100 : ℚ)

/-- A price cell that is either null or a finite number (the only cells the
discount-backfill claim speaks about). -/
def isFiniteOrNone : Option F64 → Bool
  | none => true
  | some (.num _) => true
  | _ => false

/-- The derivation half of the specification's discount-backfill rule:
`round(((mrp − cost)/mrp)·100, 2)` if `mrp > 0` and `cost < mrp`, else
`0.0`; missing either price leaves the discount null.  (Cells that are
neither null nor finite are outside the claim; the theorem's hypotheses
exclude them.) -/
def spec_discount_derive : Option F64 → Option F64 → Option F64
  | some (.num c), some (.num m) =>
    if 0 < m ∧ c < m then
      some (.num (qRound2 (qMul (qDiv (qSub m c) m) (100 : ℚ))))
    else some (.num (0 : ℚ))
  | _, _ => none

/-- The specification's discount-backfill rule: a row with an existing
valid (non-NaN) non-null discount keeps it; where the discount is null or
NaN the derivation applies. -/
def spec_discount_rule (existing cost mrp : Option F64) : Option F64 :=
  match existing with
  | some d => if d.isNan then spec_discount_derive cost mrp else some d
  | none => spec_discount_derive cost mrp

/-- The `k`-th unit pattern (a matcher that never fires past the end of the
vector). -/
def unit_pattern_matcher (k : ℕ) : List Char → Option (List Char × List Char) :=
  unit_pattern_list.getD k (fun _ => none)

/-- The simulated source of the spec's pagination property: pages 1–3
non-empty (one item each), empty thereafter. -/
def demo_pages : ℕ → PageResp := fun p =>
  if p = 1 then .ok (Json.arr [Json.str "item1"])
  else if p = 2 then .ok (Json.arr [Json.str "item2"])
  else if p = 3 then .ok (Json.arr [Json.str "item3"])
  else .ok (Json.obj [])

/-- A source whose first page fails at transport level. -/
def demo_flaky : ℕ → PageResp := fun p =>
  if p = 1 then .httpErr
  else if p = 2 then .ok (Json.arr [Json.str "x"])
  else .ok (Json.obj [])

/-! ## Flattener properties -/

theorem collect_records_eq (l : List Json) :
    collect_records l = l.map extract_record := by
  induction l with
  | nil => rfl
  | cons a t ih =>
    simpa [collect_records, extract_fields_directly] using ih

theorem map_extract_isEmpty {l : List Json} (h : l ≠ []) :
    (l.map extract_record).isEmpty = false := by
  cases l with
  | nil => exact absurd rfl h
  | cons a t => rfl

/-- C1 (corrected): no record is ever excluded — `extract_fields_directly`
has no error path, so every raw record produces exactly one output row
(unresolved fields become empty strings) and the excluded count is always
zero: the output row count equals the input count. -/
theorem flatten_excludes_nothing (json_data : List Json) :
    ∃ df, flatten_to_dataframe json_data = .ok df ∧ df.height = json_data.length := by
  cases json_data with
  | nil => exact ⟨[], rfl, rfl⟩
  | cons a t =>
    refine ⟨flat_df_of ((a :: t).map extract_record), ?_, ?_⟩
    · simp [flatten_to_dataframe, collect_records_eq, records_to_dataframe]
    · simp [flat_df_of, flat_fields, DataFrame.height, Col.len]

/-- C1 counterexample: the empty JSON object resolves neither a product_id
nor a non-empty name, yet flattening it yields one row, not zero. -/
theorem flatten_keeps_unresolvable_record :
    recordGet (extract_record (Json.obj [])) "product_id" = none ∧
    recordGet (extract_record (Json.obj [])) "name" = none ∧
    (flatten_to_dataframe [Json.obj []]).map DataFrame.height = .ok 1 :=
  ⟨rfl, rfl, rfl⟩

/-- C10 (confirmed): flattening a batch with at least one record yields
exactly the eight string-typed columns in their fixed order, each cell
holding `some` string — the empty string (not a null) whenever the field was
not resolved for that record; an input yielding no records produces the
empty frame. -/
theorem flatten_schema_invariant :
    (∀ json_data : List Json, json_data ≠ [] →
      flatten_to_dataframe json_data =
        .ok (flat_fields.map (fun f =>
          (f, Col.strCol (json_data.map (fun item =>
            some ((recordGet (extract_record item) f).getD ""))))))) ∧
    flatten_to_dataframe ([] : List Json) = .ok [] := by
  constructor
  · intro l h
    simp [flatten_to_dataframe, collect_records_eq, records_to_dataframe,
      map_extract_isEmpty h, flat_df_of, List.map_map, Function.comp]
  · rfl

/-- C10 witness at a concrete one-element input. -/
theorem flatten_schema_invariant_witness :
    flatten_to_dataframe [Json.str "x"] =
      .ok (flat_fields.map (fun f =>
        (f, Col.strCol ([Json.str "x"].map (fun item =>
          some ((recordGet (extract_record item) f).getD "")))))) :=
  flatten_schema_invariant.1 [Json.str "x"] (List.cons_ne_nil _ _)

theorem vstack_flat_df (rs1 rs2 : List Record) :
    DataFrame.vstack (flat_df_of rs1) (flat_df_of rs2) =
      .ok (flat_df_of (rs1 ++ rs2)) := by
  simp [flat_df_of, flat_fields, DataFrame.vstack, DataFrame.vstackCol,
    List.map_append]

theorem collect_batch_dfs_ok (chunks : List (List Json))
    (h : ∀ c ∈ chunks, c ≠ []) :
    collect_batch_dfs (chunks.map Except.ok) =
      .ok (chunks.map (fun c => flat_df_of (c.map extract_record))) := by
  induction chunks with
  | nil => rfl
  | cons c rest ih =>
    have hc : c ≠ [] := h c (by simp)
    have hrest := ih (fun x hx => h x (by simp [hx]))
    simp [collect_batch_dfs, hrest, collect_records_eq, map_extract_isEmpty hc,
      records_to_dataframe, bind, Except.bind]

theorem foldl_vstack_flat (rss : List (List Record)) (rs0 : List Record) :
    List.foldlM (fun combined d => DataFrame.vstack combined d)
      (flat_df_of rs0) (rss.map flat_df_of) =
      .ok (flat_df_of (rs0 ++ rss.flatten)) := by
  induction rss generalizing rs0 with
  | nil => simp [pure, Except.pure]
  | cons rs rest ih =>
    simp [List.foldlM_cons, vstack_flat_df, bind, Except.bind, ih,
      List.append_assoc]

/-- C6 (confirmed): flattening ordered nonempty chunks and vertically
concatenating the per-chunk frames gives the same frame as flattening the
whole input at once, and the driver chooses chunk sizes exactly as
specified. -/
theorem chunked_flatten_equivalence :
    (∀ chunks : List (List Json), (∀ c ∈ chunks, c ≠ []) →
      flatten_to_dataframe_batched (chunks.map Except.ok) =
        flatten_to_dataframe chunks.flatten) ∧
    (∀ n : ℕ, (n ≤ 500 → batch_size_policy n = n) ∧
      (500 < n → n ≤ 5000 → batch_size_policy n = 500) ∧
      (5000 < n → n ≤ 50000 → batch_size_policy n = 2000) ∧
      (50000 < n → batch_size_policy n = 5000)) := by
  constructor
  · intro chunks h
    cases chunks with
    | nil => rfl
    | cons c rest =>
      have hc : c ≠ [] := h c (by simp)
      have hcol := collect_batch_dfs_ok (c :: rest) h
      have hjoin : (c :: rest).flatten ≠ [] := by
        cases c with
        | nil => exact absurd rfl hc
        | cons a t => simp
      cases rest with
      | nil =>
        simp only [List.map_cons, List.map_nil] at hcol
        simp [flatten_to_dataframe_batched, hcol, bind, Except.bind,
          flatten_to_dataframe, collect_records_eq, records_to_dataframe,
          List.append_nil, map_extract_isEmpty hc]
      | cons c2 rest2 =>
        simp only [List.map_cons] at hcol
        have hmap : rest2.map (fun x => flat_df_of (x.map extract_record)) =
            (rest2.map (fun x => x.map extract_record)).map flat_df_of := by
          simp [List.map_map, Function.comp]
        have hfold := foldl_vstack_flat (rest2.map (fun x => x.map extract_record))
          (c.map extract_record ++ c2.map extract_record)
        simp only [flatten_to_dataframe_batched, List.map_cons, hcol, bind,
          Except.bind, List.foldlM_cons, vstack_flat_df, hmap, hfold,
          flatten_to_dataframe, collect_records_eq, records_to_dataframe,
          map_extract_isEmpty hjoin]
        simp [flat_df_of, List.map_append, List.map_flatten, List.map_map,
          List.append_assoc]
  · intro n
    refine ⟨fun h1 => ?_, fun h1 h2 => ?_, fun h1 h2 => ?_, fun h1 => ?_⟩ <;>
      simp only [batch_size_policy]
    · rw [if_pos h1]
    · rw [if_neg (by omega), if_pos h2]
    · rw [if_neg (by omega), if_neg (by omega), if_pos h2]
    · rw [if_neg (by omega), if_neg (by omega), if_neg (by omega)]

/-! ## Classifier properties -/

theorem renameFirst_snd (df : DataFrame) (o n : String) :
    (DataFrame.renameFirst df o n).map Prod.snd = df.map Prod.snd := by
  induction df with
  | nil => rfl
  | cons p rest ih =>
    by_cases hname : p.1 = o
    · simp [DataFrame.renameFirst, hname]
    · simp [DataFrame.renameFirst, hname, ih]

theorem renameIgnoring_snd (df : DataFrame) (o n : String) :
    (DataFrame.renameIgnoring df o n).map Prod.snd = df.map Prod.snd := by
  unfold DataFrame.renameIgnoring
  split
  · rfl
  · exact renameFirst_snd df o n

theorem classify_foldl_snd (names : List String) (acc : DataFrame) :
    ((names.foldl (fun acc col_name =>
      match acc.columnGet col_name with
      | none => acc
      | some series =>
        let sample_values := sample_values_of series
        let canonical_name := classify_field col_name sample_values
        if canonical_name ≠ col_name then
          DataFrame.renameIgnoring acc col_name canonical_name
        else acc) acc).map Prod.snd) = acc.map Prod.snd := by
  induction names generalizing acc with
  | nil => rfl
  | cons nm rest ih =>
    rw [List.foldl_cons, ih]
    cases h : acc.columnGet nm with
    | none => simp [h]
    | some series =>
      simp only [h]
      split
      · exact renameIgnoring_snd acc nm _
      · rfl

theorem height_congr {xs ys : DataFrame} (h : xs.map Prod.snd = ys.map Prod.snd) :
    xs.height = ys.height := by
  cases xs with
  | nil => cases ys with | nil => rfl | cons q s => simp at h
  | cons p t =>
    cases ys with
    | nil => simp at h
    | cons q s =>
      simp only [List.map_cons, List.cons.injEq] at h
      simp [DataFrame.height, h.1]

/-- C9 (confirmed): `map_to_canonical_schema` only renames columns: the
column count, the row count and every column's cells are unchanged — the
sequence of column payloads (and hence every cell) is exactly that of the
input. -/
theorem classify_only_renames (df : DataFrame) :
    (map_to_canonical_schema df).map Prod.snd = df.map Prod.snd ∧
    (map_to_canonical_schema df).length = df.length ∧
    (map_to_canonical_schema df).height = df.height := by
  have hsnd : (map_to_canonical_schema df).map Prod.snd = df.map Prod.snd := by
    unfold map_to_canonical_schema
    exact classify_foldl_snd (df.map (fun p => p.1)) df
  refine ⟨hsnd, ?_, height_congr hsnd⟩
  have := congrArg List.length hsnd
  simpa using this

theorem listContainsSub_self (l : List Char) : listContainsSub l l = true := by
  cases l with
  | nil => rfl
  | cons c t =>
    have : (c :: t).isPrefixOf (c :: t) = true := by
      induction t with
      | nil => simp [List.isPrefixOf]
      | cons d s ih => simp_all [List.isPrefixOf]
    simp [listContainsSub, this]

/-- C7 (corrected): when a column name matches no alias exactly or by
substring and none of the name heuristics fire, a first sample value that
merely parses as a number is classified as a price, so the column is renamed
to `cost_price`; the content fallback yields `discount` only for a first
sample that does not look like a price (no currency symbol, no
decimal-with-digits pattern, not parseable as a number) but contains `%`,
`off` or `discount`. -/
theorem classify_content_discount (field_name : String) (sample_values : List String)
    (s : String)
    (halias : ∀ p ∈ field_mappings,
      normalize_field_name p.1 ≠ normalize_field_name field_name ∧
      strContains (normalize_field_name field_name) (normalize_field_name p.1) = false ∧
      strContains (normalize_field_name p.1) (normalize_field_name field_name) = false)
    (hsku : strContains (strLower field_name) "sku" = false)
    (hprice : strContains (strLower field_name) "price" = false)
    (hcost : strContains (strLower field_name) "cost" = false)
    (hmrp : strContains (strLower field_name) "mrp" = false)
    (hname : strContains (strLower field_name) "name" = false)
    (htitle : strContains (strLower field_name) "title" = false)
    (hproduct : strContains (strLower field_name) "product" = false)
    (hid : strContains (strLower field_name) "id" = false)
    (hpid : strContains (strLower field_name) "product_id" = false)
    (hdiscount : strContains (strLower field_name) "discount" = false)
    (hoff : strContains (strLower field_name) "off" = false)
    (hpercent : strContains (strLower field_name) "percent" = false)
    (hcategory : strContains (strLower field_name) "category" = false)
    (htype : strContains (strLower field_name) "type" = false)
    (hclass : strContains (strLower field_name) "class" = false)
    (hhead : sample_values.head? = some s)
    (hnotprice : looks_like_price (strLower s) = false)
    (hdisc : looks_like_discount (strLower s) = true) :
    classify_field field_name sample_values = "discount" := by
  have hne : field_name ≠ "discount" := by
    intro heq
    rw [heq] at hdiscount
    exact absurd hdiscount (by decide)
  have hfind1 : field_mappings.find?
      (fun p => normalize_field_name p.1 == normalize_field_name field_name) = none := by
    rw [List.find?_eq_none]
    intro p hp
    simpa using (halias p hp).1
  have hfind2 : field_mappings.find? (fun p =>
      let np := normalize_field_name p.1
      strContains (normalize_field_name field_name) np ||
        strContains np (normalize_field_name field_name)) = none := by
    rw [List.find?_eq_none]
    intro p hp
    simp [(halias p hp).2.1, (halias p hp).2.2]
  have hnonempty : sample_values.isEmpty = false := by
    cases sample_values with
    | nil => simp at hhead
    | cons a t => rfl
  have hcontent : classify_by_content field_name sample_values = "discount" := by
    have hsample : (sample_values.head?).getD "" = s := by rw [hhead]; rfl
    simp only [classify_by_content, hsku, hprice, hcost, hmrp, hname, htitle,
      hproduct, hid, hpid, hdiscount, hoff, hpercent, hcategory, htype, hclass,
      hsample, hnotprice, hdisc, Bool.false_and, Bool.and_false, Bool.false_or,
      Bool.or_false, if_false, Bool.not_false, Bool.true_and, if_true]
    decide
  simp only [classify_field, hfind1, hfind2, hnonempty, Bool.not_false, if_true,
    hcontent]
  simp [hne, Ne.symm hne]

/-- C7 witness: an unrecognised column whose first sample is `"50% off"`
(contains `%`, does not parse as a number) is renamed to `discount`. -/
theorem classify_content_discount_witness :
    classify_field "zzz" ["50% off"] = "discount" :=
  classify_content_discount "zzz" ["50% off"] "50% off"
    (by decide) (by decide) (by decide) (by decide) (by decide) (by decide)
    (by decide) (by decide) (by decide) (by decide) (by decide) (by decide)
    (by decide) (by decide) (by decide) (by decide) rfl (by decide) (by decide)

/-- C7 counterexample: the column `zzz` matches no alias (exactly or by
substring) and no name heuristic, and its first sample `"50"` is a plain
numeral parsing as a number `≤ 100` with no currency symbol and no decimal
pattern — yet `classify_field` yields `cost_price`, not `discount`, because
`looks_like_price` also accepts any value that parses as a number and is
checked first. -/
theorem classify_numeral_sample_cex :
    classify_field "zzz" ["50"] = "cost_price" ∧
    ("cost_price" ≠ "discount") ∧
    parseF64 "50" = some (F64.num (qOfInt 50)) ∧
    F64.le (F64.num (qOfInt 50)) (F64.num (qOfInt 100)) = true ∧
    strContains "50" "$" = false ∧
    strContains "50" "." = false ∧
    (field_mappings.all (fun p =>
      (normalize_field_name p.1 != normalize_field_name "zzz") &&
      !strContains (normalize_field_name "zzz") (normalize_field_name p.1) &&
      !strContains (normalize_field_name p.1) (normalize_field_name "zzz")) = true) := by
  refine ⟨by decide, by decide, by decide, by decide, by decide, by decide, by decide⟩

/-- C6 witness: the chunk equivalence at a concrete two-chunk partition and
the policy at concrete sizes. -/
theorem chunked_flatten_equivalence_witness :
    flatten_to_dataframe_batched ([[Json.str "a"], [Json.str "b"]].map Except.ok) =
      flatten_to_dataframe ([[Json.str "a"], [Json.str "b"]].flatten) ∧
    batch_size_policy 600 = 500 ∧ batch_size_policy 400 = 400 :=
  ⟨chunked_flatten_equivalence.1 [[Json.str "a"], [Json.str "b"]]
    (by
      intro c hc
      simp only [List.mem_cons, List.mem_singleton] at hc
      rcases hc with rfl | rfl | h
      · exact List.cons_ne_nil _ _
      · exact List.cons_ne_nil _ _
      · exact absurd h (List.not_mem_nil c)),
   (chunked_flatten_equivalence.2 600).2.1 (by omega) (by omega),
   (chunked_flatten_equivalence.2 400).1 (by omega)⟩

/-! ## Fetcher properties -/

theorem extract_by_path_go_ok (parts : List (List Char)) (current : Json) :
    ∃ l, extract_by_path_go parts current = .ok l := by
  induction parts generalizing current with
  | nil => exact ⟨_, rfl⟩
  | cons part rest ih =>
    cases hb : "[]".data.isSuffixOf part with
    | true =>
      cases hk : (current.getKey (String.mk (part.take (part.length - 2)))).bind
          Json.asArray with
      | none => exact ⟨[], by simp [extract_by_path_go, hb, hk]⟩
      | some arr => exact ⟨arr, by simp [extract_by_path_go, hb, hk]⟩
    | false =>
      obtain ⟨l, hl⟩ := ih ((current.getKey (String.mk part)).getD .null)
      exact ⟨l, by simp [extract_by_path_go, hb, hl]⟩

theorem extract_by_common_patterns_ok (data : Json) :
    ∃ l, extract_by_common_patterns data = .ok l := by
  unfold extract_by_common_patterns
  split
  · exact ⟨_, rfl⟩
  · split
    · exact ⟨_, rfl⟩
    · split
      · exact ⟨_, rfl⟩
      · split
        · exact ⟨_, rfl⟩
        · exact ⟨_, rfl⟩

theorem extract_products_ok (cfg : FetchConfig) (data : Json) :
    ∃ l, extract_products cfg data = .ok l := by
  unfold extract_products
  cases cfg.data_path with
  | none => exact extract_by_common_patterns_ok data
  | some path => exact extract_by_path_go_ok _ data

theorem fetch_get_pages_ok (cfg : FetchConfig) (resp : ℕ → PageResp) :
    ∀ (fuel page cnt : ℕ) (acc : List Json) (att : ℕ),
    ∃ items a, fetch_get_pages cfg resp fuel page cnt acc att = .ok (items, a) ∧
      a ≤ att + (51 - page) := by
  intro fuel
  induction fuel with
  | zero => exact fun page cnt acc att => ⟨acc, att, rfl, by omega⟩
  | succ fuel ih =>
    intro page cnt acc att
    by_cases hpage : page > 50
    · exact ⟨acc, att, by simp [fetch_get_pages, hpage], by omega⟩
    · cases hr : resp page with
      | httpErr =>
        by_cases hcnt : cnt + 1 ≥ 2
        · exact ⟨acc, att + 1, by simp [fetch_get_pages, hpage, hr, hcnt], by omega⟩
        · obtain ⟨items, a, hres, hb⟩ := ih (page + 1) (cnt + 1) acc (att + 1)
          exact ⟨items, a, by simp [fetch_get_pages, hpage, hr, hcnt, hres],
            by omega⟩
      | jsonErr =>
        by_cases hcnt : cnt + 1 ≥ 2
        · exact ⟨acc, att + 1, by simp [fetch_get_pages, hpage, hr, hcnt], by omega⟩
        · obtain ⟨items, a, hres, hb⟩ := ih (page + 1) (cnt + 1) acc (att + 1)
          exact ⟨items, a, by simp [fetch_get_pages, hpage, hr, hcnt, hres],
            by omega⟩
      | ok data =>
        obtain ⟨l, hl⟩ := extract_products_ok cfg data
        cases hemp : l.isEmpty with
        | true =>
          by_cases hcnt : cnt + 1 ≥ 2
          · exact ⟨acc, att + 1,
              by simp [fetch_get_pages, hpage, hr, hl, hemp, hcnt], by omega⟩
          · obtain ⟨items, a, hres, hb⟩ := ih (page + 1) (cnt + 1) acc (att + 1)
            exact ⟨items, a,
              by simp [fetch_get_pages, hpage, hr, hl, hemp, hcnt, hres], by omega⟩
        | false =>
          obtain ⟨items, a, hres, hb⟩ := ih (page + 1) 0 (acc ++ l) (att + 1)
          exact ⟨items, a,
            by simp [fetch_get_pages, hpage, hr, hl, hemp, hres], by omega⟩

theorem fetch_post_pages_ok (cfg : FetchConfig) (resp : ℕ → PageResp) :
    ∀ (fuel page cnt : ℕ) (acc : List Json) (att : ℕ),
    ∃ items a, fetch_post_pages cfg resp fuel page cnt acc att = .ok (items, a) ∧
      a ≤ att + (50 - page) := by
  intro fuel
  induction fuel with
  | zero => exact fun page cnt acc att => ⟨acc, att, rfl, by omega⟩
  | succ fuel ih =>
    intro page cnt acc att
    by_cases hpage : page ≥ 50
    · exact ⟨acc, att, by simp [fetch_post_pages, hpage], by omega⟩
    · cases hr : resp page with
      | httpErr =>
        by_cases hcnt : cnt + 1 ≥ 2
        · exact ⟨acc, att + 1, by simp [fetch_post_pages, hpage, hr, hcnt], by omega⟩
        · obtain ⟨items, a, hres, hb⟩ := ih (page + 1) (cnt + 1) acc (att + 1)
          exact ⟨items, a, by simp [fetch_post_pages, hpage, hr, hcnt, hres],
            by omega⟩
      | jsonErr =>
        by_cases hcnt : cnt + 1 ≥ 2
        · exact ⟨acc, att + 1, by simp [fetch_post_pages, hpage, hr, hcnt], by omega⟩
        · obtain ⟨items, a, hres, hb⟩ := ih (page + 1) (cnt + 1) acc (att + 1)
          exact ⟨items, a, by simp [fetch_post_pages, hpage, hr, hcnt, hres],
            by omega⟩
      | ok data =>
        obtain ⟨l, hl⟩ := extract_products_ok cfg data
        cases hemp : l.isEmpty with
        | true =>
          by_cases hcnt : cnt + 1 ≥ 2
          · exact ⟨acc, att + 1,
              by simp [fetch_post_pages, hpage, hr, hl, hemp, hcnt], by omega⟩
          · obtain ⟨items, a, hres, hb⟩ := ih (page + 1) (cnt + 1) acc (att + 1)
            exact ⟨items, a,
              by simp [fetch_post_pages, hpage, hr, hl, hemp, hcnt, hres], by omega⟩
        | false =>
          obtain ⟨items, a, hres, hb⟩ := ih (page + 1) 0 (acc ++ l) (att + 1)
          exact ⟨items, a,
            by simp [fetch_post_pages, hpage, hr, hl, hemp, hres], by omega⟩

theorem fetch_get_pages_stop_next (cfg : FetchConfig) (resp : ℕ → PageResp) (p : ℕ)
    (hp : isEmptyOrFailed cfg (resp (p + 1)) = true) :
    ∀ (fuel cnt acc att items a : _), 1 ≤ cnt →
    fetch_get_pages cfg resp fuel (p + 1) cnt acc att = .ok (items, a) →
    a ≤ att + 1 := by
  intro fuel cnt acc att items a hcnt hres
  cases fuel with
  | zero =>
    simp only [fetch_get_pages, Except.ok.injEq, Prod.mk.injEq] at hres
    omega
  | succ fuel =>
    by_cases hpage : p + 1 > 50
    · simp only [fetch_get_pages, if_pos hpage, Except.ok.injEq, Prod.mk.injEq] at hres
      omega
    · have hc2 : cnt + 1 ≥ 2 := by omega
      cases hr : resp (p + 1) with
      | httpErr =>
        simp only [fetch_get_pages, if_neg hpage, hr, if_pos hc2,
          Except.ok.injEq, Prod.mk.injEq] at hres
        omega
      | jsonErr =>
        simp only [fetch_get_pages, if_neg hpage, hr, if_pos hc2,
          Except.ok.injEq, Prod.mk.injEq] at hres
        omega
      | ok data =>
        cases hl : extract_products cfg data with
        | error e => simp [isEmptyOrFailed, hr, hl] at hp
        | ok l =>
          have hpl : l.isEmpty = true := by
            simpa only [isEmptyOrFailed, hr, hl] using hp
          simp only [fetch_get_pages, if_neg hpage, hr, hl, hpl, if_true,
            if_pos hc2, Except.ok.injEq, Prod.mk.injEq] at hres
          omega

theorem fetch_get_pages_stop (cfg : FetchConfig) (resp : ℕ → PageResp) (p : ℕ)
    (hp1 : isEmptyOrFailed cfg (resp p) = true)
    (hp2 : isEmptyOrFailed cfg (resp (p + 1)) = true) :
    ∀ (fuel page cnt acc att items a : _), page ≤ p →
    fetch_get_pages cfg resp fuel page cnt acc att = .ok (items, a) →
    a ≤ att + (p + 2 - page) := by
  intro fuel
  induction fuel with
  | zero =>
    intro page cnt acc att items a hpp hres
    simp only [fetch_get_pages, Except.ok.injEq, Prod.mk.injEq] at hres
    omega
  | succ fuel ih =>
    intro page cnt acc att items a hpp hres
    by_cases hpage : page > 50
    · simp only [fetch_get_pages, if_pos hpage, Except.ok.injEq, Prod.mk.injEq] at hres
      omega
    · rcases Nat.lt_or_ge page p with hlt | hge
      · -- before page p: one more attempt, then the bound shrinks by one
        cases hr : resp page with
        | httpErr =>
          by_cases hcnt : cnt + 1 ≥ 2
          · simp only [fetch_get_pages, if_neg hpage, hr, if_pos hcnt,
              Except.ok.injEq, Prod.mk.injEq] at hres
            omega
          · simp only [fetch_get_pages, if_neg hpage, hr, if_neg hcnt] at hres
            have := ih (page + 1) (cnt + 1) acc (att + 1) items a (by omega) hres
            omega
        | jsonErr =>
          by_cases hcnt : cnt + 1 ≥ 2
          · simp only [fetch_get_pages, if_neg hpage, hr, if_pos hcnt,
              Except.ok.injEq, Prod.mk.injEq] at hres
            omega
          · simp only [fetch_get_pages, if_neg hpage, hr, if_neg hcnt] at hres
            have := ih (page + 1) (cnt + 1) acc (att + 1) items a (by omega) hres
            omega
        | ok data =>
          obtain ⟨l, hl⟩ := extract_products_ok cfg data
          cases hemp : l.isEmpty with
          | true =>
            by_cases hcnt : cnt + 1 ≥ 2
            · simp only [fetch_get_pages, if_neg hpage, hr, hl, hemp, if_true,
                if_pos hcnt, Except.ok.injEq, Prod.mk.injEq] at hres
              omega
            · simp only [fetch_get_pages, if_neg hpage, hr, hl, hemp, if_true,
                if_neg hcnt] at hres
              have := ih (page + 1) (cnt + 1) acc (att + 1) items a (by omega) hres
              omega
          | false =>
            simp only [fetch_get_pages, if_neg hpage, hr, hl, hemp] at hres
            have := ih (page + 1) 0 (acc ++ l) (att + 1) items a (by omega) hres
            omega
      · -- page = p: this attempt and at most one more
        have hpp' : page = p := by omega
        subst hpp'
        cases hr : resp page with
        | httpErr =>
          by_cases hcnt : cnt + 1 ≥ 2
          · simp only [fetch_get_pages, if_neg hpage, hr, if_pos hcnt,
              Except.ok.injEq, Prod.mk.injEq] at hres
            omega
          · simp only [fetch_get_pages, if_neg hpage, hr, if_neg hcnt] at hres
            have := fetch_get_pages_stop_next cfg resp page hp2 fuel (cnt + 1)
              acc (att + 1) items a (by omega) hres
            omega
        | jsonErr =>
          by_cases hcnt : cnt + 1 ≥ 2
          · simp only [fetch_get_pages, if_neg hpage, hr, if_pos hcnt,
              Except.ok.injEq, Prod.mk.injEq] at hres
            omega
          · simp only [fetch_get_pages, if_neg hpage, hr, if_neg hcnt] at hres
            have := fetch_get_pages_stop_next cfg resp page hp2 fuel (cnt + 1)
              acc (att + 1) items a (by omega) hres
            omega
        | ok data =>
          cases hl : extract_products cfg data with
          | error e => simp [isEmptyOrFailed, hr, hl] at hp1
          | ok l =>
            have hpl : l.isEmpty = true := by
              simpa only [isEmptyOrFailed, hr, hl] using hp1
            by_cases hcnt : cnt + 1 ≥ 2
            · simp only [fetch_get_pages, if_neg hpage, hr, hl, hpl, if_true,
                if_pos hcnt, Except.ok.injEq, Prod.mk.injEq] at hres
              omega
            · simp only [fetch_get_pages, if_neg hpage, hr, hl, hpl, if_true,
                if_neg hcnt] at hres
              have := fetch_get_pages_stop_next cfg resp page hp2 fuel (cnt + 1)
                acc (att + 1) items a (by omega) hres
              omega

/-- C3 (confirmed): the pagination loops always return a success value with
at most 50 page attempts; two consecutive empty-or-failed pages at `p`,
`p+1` stop a GET fetch within `p+1` attempts; and the simulated source with
non-empty pages 1–3 and empty pages thereafter yields exactly the
concatenation of pages 1–3 in 5 attempts. -/
theorem pagination_terminates :
    (∀ (cfg : FetchConfig) (resp : ℕ → PageResp),
      ∃ items att, fetch_get_paginated cfg resp = .ok (items, att) ∧ att ≤ 50) ∧
    (∀ (cfg : FetchConfig) (resp : ℕ → PageResp) (p : ℕ), 1 ≤ p →
      isEmptyOrFailed cfg (resp p) = true →
      isEmptyOrFailed cfg (resp (p + 1)) = true →
      ∀ items att, fetch_get_paginated cfg resp = .ok (items, att) → att ≤ p + 1) ∧
    (∀ (cfg : FetchConfig) (resp : ℕ → PageResp),
      ∃ items att, fetch_post_paginated cfg resp = .ok (items, att) ∧ att ≤ 50) ∧
    fetch_get_paginated ⟨none⟩ demo_pages =
      .ok ([Json.str "item1", Json.str "item2", Json.str "item3"], 5) := by
  refine ⟨?_, ?_, ?_, rfl⟩
  · intro cfg resp
    obtain ⟨items, a, hres, hb⟩ := fetch_get_pages_ok cfg resp 51 1 0 [] 0
    exact ⟨items, a, hres, by omega⟩
  · intro cfg resp p hp hp1 hp2 items att hres
    have := fetch_get_pages_stop cfg resp p hp1 hp2 51 1 0 [] 0 items att hp hres
    omega
  · intro cfg resp
    obtain ⟨items, a, hres, hb⟩ := fetch_post_pages_ok cfg resp 51 0 0 [] 0
    exact ⟨items, a, hres, by omega⟩

/-- C3 witness: both success/cap parts at the simulated source, and the
consecutive-empty bound applied at pages 4 and 5 of that source, where the
fetch indeed used 5 ≤ 4+1 attempts. -/
theorem pagination_terminates_witness :
    (∃ items att, fetch_get_paginated ⟨none⟩ demo_pages = .ok (items, att) ∧ att ≤ 50) ∧
    (∃ items att, fetch_post_paginated ⟨none⟩ demo_pages = .ok (items, att) ∧ att ≤ 50) ∧
    (5 : ℕ) ≤ 4 + 1 :=
  ⟨pagination_terminates.1 ⟨none⟩ demo_pages,
   pagination_terminates.2.2.1 ⟨none⟩ demo_pages,
   pagination_terminates.2.1 ⟨none⟩ demo_pages 4 (by omega) (by decide) (by decide)
     [Json.str "item1", Json.str "item2", Json.str "item3"] 5
     pagination_terminates.2.2.2⟩

theorem extract_by_path_go_trivial (parts : List (List Char)) (current : Json)
    (h : current = Json.obj [] ∨ current = Json.null) :
    extract_by_path_go parts current = .ok [] := by
  induction parts generalizing current with
  | nil => rcases h with rfl | rfl <;> rfl
  | cons part rest ih =>
    rcases h with rfl | rfl <;>
    · cases hb : "[]".data.isSuffixOf part with
      | true => simp [extract_by_path_go, hb, Json.getKey]
      | false =>
        have := ih Json.null (Or.inr rfl)
        simp [extract_by_path_go, hb, Json.getKey, this]

theorem extract_products_empty_obj (cfg : FetchConfig) :
    extract_products cfg (Json.obj []) = .ok [] := by
  unfold extract_products
  cases cfg.data_path with
  | none => rfl
  | some path => exact extract_by_path_go_trivial _ _ (Or.inl rfl)

theorem fetch_get_pages_subst (cfg : FetchConfig) (resp : ℕ → PageResp) (p : ℕ)
    (hfail : resp p = .httpErr ∨ resp p = .jsonErr) :
    ∀ (fuel page cnt : ℕ) (acc : List Json) (att : ℕ),
    fetch_get_pages cfg resp fuel page cnt acc att =
      fetch_get_pages cfg (fun q => if q = p then .ok (Json.obj []) else resp q)
        fuel page cnt acc att := by
  intro fuel
  induction fuel with
  | zero => intros; rfl
  | succ fuel ih =>
    intro page cnt acc att
    by_cases hpage : page > 50
    · simp [fetch_get_pages, hpage]
    · by_cases hpq : page = p
      · subst hpq
        rcases hfail with hf | hf <;>
          simp [fetch_get_pages, hpage, hf, extract_products_empty_obj, ih]
      · have hresp : (fun q => if q = p then PageResp.ok (Json.obj []) else resp q)
            page = resp page := by simp [hpq]
        cases hr : resp page with
        | httpErr =>
          by_cases hcnt : cnt + 1 ≥ 2 <;>
            simp [fetch_get_pages, hpage, hpq, hresp, hr, hcnt, ih]
        | jsonErr =>
          by_cases hcnt : cnt + 1 ≥ 2 <;>
            simp [fetch_get_pages, hpage, hpq, hresp, hr, hcnt, ih]
        | ok data =>
          cases hl : extract_products cfg data with
          | error e => simp [fetch_get_pages, hpage, hpq, hresp, hr, hl]
          | ok l =>
            cases hemp : l.isEmpty <;> by_cases hcnt : cnt + 1 ≥ 2 <;>
              simp [fetch_get_pages, hpage, hpq, hresp, hr, hl, hemp, hcnt, ih]

/-- C5 (confirmed): a transport or decode failure on one page never makes
the per-category GET fetch return an error — the fetch always returns `Ok`
— and a failed page is absorbed exactly like an empty page: replacing the
failing response by an empty body leaves the result (items and attempt
count) unchanged. -/
theorem page_failures_absorbed :
    (∀ (cfg : FetchConfig) (resp : ℕ → PageResp),
      ∃ items att, fetch_get_paginated cfg resp = .ok (items, att)) ∧
    (∀ (cfg : FetchConfig) (resp : ℕ → PageResp) (p : ℕ),
      resp p = .httpErr ∨ resp p = .jsonErr →
      fetch_get_paginated cfg resp =
        fetch_get_paginated cfg
          (fun q => if q = p then .ok (Json.obj []) else resp q)) := by
  constructor
  · intro cfg resp
    obtain ⟨items, a, hres, _⟩ := fetch_get_pages_ok cfg resp 51 1 0 [] 0
    exact ⟨items, a, hres⟩
  · intro cfg resp p hfail
    exact fetch_get_pages_subst cfg resp p hfail 51 1 0 [] 0

/-- C5 witness: a source whose first page fails at transport level still
returns `Ok`, and behaves exactly as if page 1 had been empty. -/
theorem page_failures_absorbed_witness :
    (∃ items att, fetch_get_paginated ⟨none⟩ demo_flaky = .ok (items, att)) ∧
    fetch_get_paginated ⟨none⟩ demo_flaky =
      fetch_get_paginated ⟨none⟩
        (fun q => if q = 1 then .ok (Json.obj []) else demo_flaky q) :=
  ⟨page_failures_absorbed.1 ⟨none⟩ demo_flaky,
   page_failures_absorbed.2 ⟨none⟩ demo_flaky 1 (Or.inl rfl)⟩

/-! ## Normalizer properties -/

theorem backfill_calc_spec (c m : Option F64)
    (hc : isFiniteOrNone c = true) (hm : isFiniteOrNone m = true) :
    backfill_calc c m = spec_discount_derive c m := by
  cases c with
  | none => cases m <;> rfl
  | some cv =>
    cases m with
    | none => cases cv <;> rfl
    | some mv =>
      cases cv with
      | nan => simp [isFiniteOrNone] at hc
      | inf b => simp [isFiniteOrNone] at hc
      | num cq =>
        cases mv with
        | nan => simp [isFiniteOrNone] at hm
        | inf b => simp [isFiniteOrNone] at hm
        | num mq =>
          have hlt1 : (F64.num 0).lt (F64.num mq) = decide (0 < mq) := by
            simp only [F64.lt, qLtb, decide_eq_decide, Rat.lt_def]
          have hlt2 : (F64.num cq).lt (F64.num mq) = decide (cq < mq) := by
            simp only [F64.lt, qLtb, decide_eq_decide, Rat.lt_def]
          simp only [backfill_calc, spec_discount_derive, hlt1, hlt2,
            ← Bool.decide_and]
          by_cases hpos : 0 < mq ∧ cq < mq
          · rw [if_pos (by simp [hpos]), if_pos hpos]
            have hmq : mq.num ≠ 0 := ne_of_gt (Rat.num_pos.mpr hpos.1)
            have h100 : ((100 : ℚ)).num ≠ 0 := by decide
            simp only [F64.sub, F64.div, F64.mul, F64.roundAway, if_neg hmq,
              if_neg h100, qRound2]
          · rw [if_neg (by simp [hpos]), if_neg hpos]

theorem backfill_row_spec (d c m : Option F64)
    (hc : isFiniteOrNone c = true) (hm : isFiniteOrNone m = true) :
    backfill_row d c m = spec_discount_rule d c m := by
  cases d with
  | none => exact backfill_calc_spec c m hc hm
  | some dv =>
    simp only [backfill_row, spec_discount_rule]
    cases hnan : dv.isNan with
    | true => simp [hnan, backfill_calc_spec c m hc hm]
    | false => simp [hnan]

/-- C4 (confirmed): `calculate_missing_discounts` implements exactly the
specified backfill rule on every row — a null-or-NaN discount with both
prices present becomes `round(((mrp − cost)/mrp)·100, 2)` when `mrp > 0`
and `cost < mrp` and `0.0` otherwise, an existing valid discount is kept,
and a missing price leaves the discount null; in particular the full
normalizer derives `40.0` from `cost_price = 234`, `mrp = 390` with no
explicit discount. -/
theorem discount_backfill_rule :
    (∀ (discounts cost_prices mrps : List (Option F64)),
      discounts.length = cost_prices.length →
      cost_prices.length = mrps.length →
      (∀ x ∈ cost_prices, isFiniteOrNone x = true) →
      (∀ x ∈ mrps, isFiniteOrNone x = true) →
      calculate_missing_discounts
        [("cost_price", Col.f64Col cost_prices), ("mrp", Col.f64Col mrps),
         ("discount", Col.f64Col discounts)] =
      .ok [("cost_price", Col.f64Col cost_prices), ("mrp", Col.f64Col mrps),
           ("discount", Col.f64Col ((discounts.zip (cost_prices.zip mrps)).map
             (fun p => spec_discount_rule p.1 p.2.1 p.2.2)))]) ∧
    normalize_dataframe
        [("cost_price", Col.strCol [some "234"]), ("mrp", Col.strCol [some "390"]),
         ("name", Col.strCol [some "potato"]), ("discount", Col.strCol [some ""])] =
      .ok [("cost_price", Col.f64Col [some (F64.num (qOfInt 234))]),
           ("mrp", Col.f64Col [some (F64.num (qOfInt 390))]),
           ("name", Col.strCol [some "potato"]),
           ("discount", Col.f64Col [some (F64.num (qOfInt 40))]),
           ("units_of_mass", Col.strCol [some "N/A"])] := by
  constructor
  · intro dc cp mr h1 h2 hc hm
    have hstep : calculate_missing_discounts
        [("cost_price", Col.f64Col cp), ("mrp", Col.f64Col mr),
         ("discount", Col.f64Col dc)] =
        DataFrame.withColumn
          [("cost_price", Col.f64Col cp), ("mrp", Col.f64Col mr),
           ("discount", Col.f64Col dc)] "discount"
          (Col.f64Col ((dc.zip (cp.zip mr)).map
            (fun p => backfill_row p.1 p.2.1 p.2.2))) := rfl
    have hmap : (dc.zip (cp.zip mr)).map (fun p => backfill_row p.1 p.2.1 p.2.2) =
        (dc.zip (cp.zip mr)).map (fun p => spec_discount_rule p.1 p.2.1 p.2.2) := by
      apply List.map_congr_left
      intro p hp
      obtain ⟨hp1, hp2⟩ := List.of_mem_zip hp
      obtain ⟨hpc, hpm⟩ := List.of_mem_zip hp2
      exact backfill_row_spec p.1 p.2.1 p.2.2 (hc _ hpc) (hm _ hpm)
    have hlen : (Col.f64Col ((dc.zip (cp.zip mr)).map
        (fun p => spec_discount_rule p.1 p.2.1 p.2.2))).len =
        DataFrame.height [("cost_price", Col.f64Col cp), ("mrp", Col.f64Col mr),
          ("discount", Col.f64Col dc)] := by
      simp only [Col.len, DataFrame.height, List.length_map, List.length_zip]
      omega
    rw [hstep, hmap]
    unfold DataFrame.withColumn
    rw [if_neg (by simp), if_pos hlen]
    rfl
  · rfl

/-- C4 witness: one row with `discount = null`, `cost_price = 234`,
`mrp = 390` derives `40.0` through the backfill rule. -/
theorem discount_backfill_rule_witness :
    calculate_missing_discounts
      [("cost_price", Col.f64Col [some (F64.num (qOfInt 234))]),
       ("mrp", Col.f64Col [some (F64.num (qOfInt 390))]),
       ("discount", Col.f64Col [none])] =
    .ok [("cost_price", Col.f64Col [some (F64.num (qOfInt 234))]),
         ("mrp", Col.f64Col [some (F64.num (qOfInt 390))]),
         ("discount", Col.f64Col (([none].zip
            ([some (F64.num (qOfInt 234))].zip [some (F64.num (qOfInt 390))])).map
           (fun p => spec_discount_rule p.1 p.2.1 p.2.2)))] :=
  discount_backfill_rule.1 [none] [some (F64.num (qOfInt 234))]
    [some (F64.num (qOfInt 390))] rfl rfl
    (by intro x hx; simp at hx; subst hx; rfl)
    (by intro x hx; simp at hx; subst hx; rfl)

theorem columnGet_cons (name : String) (p : String × Col) (rest : DataFrame) :
    DataFrame.columnGet (p :: rest) name =
      if p.1 = name then some p.2 else DataFrame.columnGet rest name := by
  by_cases h : p.1 = name
  · have hb : (p.1 == name) = true := by simp [h]
    simp [DataFrame.columnGet, List.find?, hb, h]
  · have hb : (p.1 == name) = false := by simp [h]
    simp [DataFrame.columnGet, List.find?, hb, h]

theorem replaceOrAppend_get_self (df : DataFrame) (n : String) (c : Col) :
    (DataFrame.replaceOrAppend df n c).columnGet n = some c := by
  induction df with
  | nil => simp [DataFrame.replaceOrAppend, columnGet_cons]
  | cons p rest ih =>
    by_cases hp : p.1 = n
    · simp [DataFrame.replaceOrAppend, hp, columnGet_cons]
    · simp [DataFrame.replaceOrAppend, hp, columnGet_cons, ih]

theorem replaceOrAppend_get_ne (df : DataFrame) (n m : String) (c : Col)
    (hne : m ≠ n) :
    (DataFrame.replaceOrAppend df n c).columnGet m = df.columnGet m := by
  induction df with
  | nil =>
    simp [DataFrame.replaceOrAppend, columnGet_cons, DataFrame.columnGet,
      Ne.symm hne]
  | cons p rest ih =>
    by_cases hp : p.1 = n
    · have hpm : p.1 ≠ m := by rw [hp]; exact Ne.symm hne
      simp [DataFrame.replaceOrAppend, hp, columnGet_cons, Ne.symm hne, hpm]
    · by_cases hm : p.1 = m
      · simp [DataFrame.replaceOrAppend, hp, columnGet_cons, hm, hne]
      · simp [DataFrame.replaceOrAppend, hp, columnGet_cons, hm, ih]

theorem withColumn_get_self {df df' : DataFrame} {n : String} {c : Col}
    (h : df.withColumn n c = .ok df') : df'.columnGet n = some c := by
  unfold DataFrame.withColumn at h
  split at h
  · injection h with h
    subst h
    simp [columnGet_cons]
  · split at h
    · injection h with h
      subst h
      exact replaceOrAppend_get_self df n c
    · exact Except.noConfusion h

theorem withColumn_get_ne {df df' : DataFrame} {n m : String} {c : Col}
    (hne : m ≠ n) (h : df.withColumn n c = .ok df') :
    df'.columnGet m = df.columnGet m := by
  unfold DataFrame.withColumn at h
  split at h
  next hemp =>
    injection h with h
    subst h
    rw [List.isEmpty_iff.mp hemp]
    simp [columnGet_cons, DataFrame.columnGet, Ne.symm hne]
  · split at h
    · injection h with h
      subst h
      exact replaceOrAppend_get_ne df n m c hne
    · exact Except.noConfusion h

theorem normalize_price_column_f64 {df df' : DataFrame} {col : String}
    (h : normalize_price_column df col = .ok df')
    (hsome : (df.columnGet col).isSome = true) :
    ∃ l, df'.columnGet col = some (.f64Col l) := by
  unfold normalize_price_column at h
  cases hc : df.columnGet col with
  | none => rw [hc] at hsome; simp at hsome
  | some c =>
    rw [hc] at h
    cases c with
    | f64Col l => exact absurd h (by simp)
    | strCol cells => exact ⟨_, withColumn_get_self h⟩

theorem normalize_price_column_ne {df df' : DataFrame} {col m : String}
    (hne : m ≠ col) (h : normalize_price_column df col = .ok df') :
    df'.columnGet m = df.columnGet m := by
  unfold normalize_price_column at h
  cases hc : df.columnGet col with
  | none => rw [hc] at h; injection h with h; subst h; rfl
  | some c =>
    rw [hc] at h
    cases c with
    | f64Col l => exact absurd h (by simp)
    | strCol cells => exact withColumn_get_ne hne h

theorem normalize_string_column_ne {df df' : DataFrame} {col m : String}
    (hne : m ≠ col) (h : normalize_string_column df col = .ok df') :
    df'.columnGet m = df.columnGet m := by
  unfold normalize_string_column at h
  cases hc : df.columnGet col with
  | none => rw [hc] at h; injection h with h; subst h; rfl
  | some c =>
    rw [hc] at h
    cases c with
    | f64Col l => exact absurd h (by simp)
    | strCol cells => exact withColumn_get_ne hne h

theorem normalize_discount_column_ne {df df' : DataFrame} {col m : String}
    (hne : m ≠ col) (h : normalize_discount_column df col = .ok df') :
    df'.columnGet m = df.columnGet m := by
  unfold normalize_discount_column at h
  cases hc : df.columnGet col with
  | none => rw [hc] at h; injection h with h; subst h; rfl
  | some c =>
    rw [hc] at h
    cases c with
    | f64Col l => exact absurd h (by simp)
    | strCol cells => exact withColumn_get_ne hne h

theorem normalize_name_units_ne {df df' : DataFrame} {m : String}
    (hm1 : m ≠ "name") (hm2 : m ≠ "units_of_mass")
    (h : normalize_name_and_extract_units df = .ok df') :
    df'.columnGet m = df.columnGet m := by
  unfold normalize_name_and_extract_units at h
  cases hc : df.columnGet "name" with
  | none => rw [hc] at h; simp [bind, Except.bind] at h
  | some c =>
    rw [hc] at h
    cases c with
    | f64Col l => simp [bind, Except.bind] at h
    | strCol cells =>
      simp only [bind, Except.bind] at h
      cases hw1 : DataFrame.withColumn df "name"
          (Col.strCol ((cells.map (fun cell =>
            match cell with
            | some name => process_name name
            | none => ("", "N/A"))).map (fun p => some p.1))) with
      | error e => rw [hw1] at h; simp at h
      | ok d1 =>
        rw [hw1] at h
        calc df'.columnGet m = d1.columnGet m := withColumn_get_ne hm2 h
        _ = df.columnGet m := withColumn_get_ne hm1 hw1

theorem calculate_missing_discounts_ne {df df' : DataFrame} {m : String}
    (hne : m ≠ "discount") (h : calculate_missing_discounts df = .ok df') :
    df'.columnGet m = df.columnGet m := by
  unfold calculate_missing_discounts at h
  split at h
  · split at h
    · exact withColumn_get_ne hne h
    · exact absurd h (by simp)
  · injection h with h
    subst h
    rfl

theorem except_bind_ok {α β : Type} {x : Except String α}
    {f : α → Except String β} {y : β} (h : x.bind f = .ok y) :
    ∃ m, x = .ok m ∧ f m = .ok y := by
  cases x with
  | error e => exact Except.noConfusion h
  | ok a => exact ⟨a, rfl, h⟩

/-- C2 (corrected): Normalize is not idempotent — for every table with a
cost_price column on which Normalize succeeds, applying Normalize a second
time fails: the first pass leaves cost_price float-typed and the price
normalizer then panics on `str().unwrap()`. -/
theorem normalize_second_application_panics (df df' : DataFrame)
    (h : normalize_dataframe df = .ok df')
    (hcp : (df.columnGet "cost_price").isSome = true) :
    ∃ e, normalize_dataframe df' = .error e := by
  unfold normalize_dataframe at h
  obtain ⟨d1, h1, h⟩ := except_bind_ok h
  obtain ⟨d2, h2, h⟩ := except_bind_ok h
  obtain ⟨d3, h3, h⟩ := except_bind_ok h
  obtain ⟨d4, h4, h⟩ := except_bind_ok h
  obtain ⟨d5, h5, h6⟩ := except_bind_ok h
  obtain ⟨l, hd1⟩ := normalize_price_column_f64 h1 hcp
  have p2 : d2.columnGet "cost_price" = d1.columnGet "cost_price" :=
    normalize_price_column_ne (by decide) h2
  have p3 : d3.columnGet "cost_price" = d2.columnGet "cost_price" :=
    normalize_name_units_ne (by decide) (by decide) h3
  have p4 : d4.columnGet "cost_price" = d3.columnGet "cost_price" := by
    by_cases hcat : (d3.columnGet "category").isSome
    · rw [if_pos hcat] at h4
      exact normalize_string_column_ne (by decide) h4
    · rw [if_neg hcat] at h4
      injection h4 with h4
      rw [h4]
  have p5 : d5.columnGet "cost_price" = d4.columnGet "cost_price" := by
    by_cases hdis : (d4.columnGet "discount").isSome
    · rw [if_pos hdis] at h5
      exact normalize_discount_column_ne (by decide) h5
    · rw [if_neg hdis] at h5
      injection h5 with h5
      rw [h5]
  have p6 : df'.columnGet "cost_price" = d5.columnGet "cost_price" :=
    calculate_missing_discounts_ne (by decide) h6
  have hdf' : df'.columnGet "cost_price" = some (.f64Col l) := by
    rw [p6, p5, p4, p3, p2, hd1]
  refine ⟨"panicked: str() unwrap on non-string column cost_price", ?_⟩
  unfold normalize_dataframe normalize_price_column
  rw [hdf']
  rfl

/-- C2 witness: the concrete normalized table from a one-row string table
with a cost_price column; the second application fails. -/
theorem normalize_second_application_panics_witness :
    ∃ e, normalize_dataframe
      [("cost_price", Col.f64Col [some (F64.num (qOfInt 100))]),
       ("name", Col.strCol [some "x"]),
       ("units_of_mass", Col.strCol [some "N/A"])] = .error e :=
  normalize_second_application_panics
    [("cost_price", Col.strCol [some "100"]), ("name", Col.strCol [some "x"])]
    [("cost_price", Col.f64Col [some (F64.num (qOfInt 100))]),
     ("name", Col.strCol [some "x"]),
     ("units_of_mass", Col.strCol [some "N/A"])]
    (by decide) (by decide)

/-- C2 counterexample: a one-row table with string columns cost_price and
name on which Normalize succeeds but `Normalize(Normalize(t))` is an error,
not `Normalize(t)`. -/
theorem normalize_not_idempotent_cex :
    ((normalize_dataframe [("cost_price", Col.strCol [some "100"]),
        ("name", Col.strCol [some "x"])] >>= normalize_dataframe) ≠
      normalize_dataframe [("cost_price", Col.strCol [some "100"]),
        ("name", Col.strCol [some "x"])]) ∧
    (normalize_dataframe [("cost_price", Col.strCol [some "100"]),
        ("name", Col.strCol [some "x"])]).toOption.isSome = true :=
  ⟨by decide, by decide⟩

/-- C8 (confirmed): the name normalizer tries the five unit patterns in
their fixed order (parenthetical weight/volume range, parenthetical count,
dash-prefixed count, dash-prefixed weight/volume, trailing weight/volume);
the first pattern that matches yields its trimmed capture as
`units_of_mass` and its span is removed from the name; in particular
`"Kfresh Potatoes (Aalu) - 3 Kg"` normalizes to name `"kfresh potatoes"`
with units `"3 Kg"`. -/
theorem unit_extraction_order :
    (∀ (cs pre rest cap : List Char) (k : ℕ), k < 5 →
      (∀ j, j < k → scanPattern (unit_pattern_matcher j) cs = none) →
      scanPattern (unit_pattern_matcher k) cs = some (pre, rest, cap) →
      tryUnitPatternsAux unit_pattern_list cs =
        some (String.mk (trimChars cap), pre ++ rest)) ∧
    normalize_name_and_extract_units
        [("name", Col.strCol [some "Kfresh Potatoes (Aalu) - 3 Kg"])] =
      .ok [("name", Col.strCol [some "kfresh potatoes"]),
           ("units_of_mass", Col.strCol [some "3 Kg"])] := by
  constructor
  · intro cs pre rest cap k hk hnone hsome
    interval_cases k
    · have h0 : scanPattern p1MatchHere cs = some (pre, rest, cap) := hsome
      simp [tryUnitPatternsAux, unit_pattern_list, h0]
    · have h0 : scanPattern p1MatchHere cs = none := hnone 0 (by omega)
      have h1 : scanPattern p2MatchHere cs = some (pre, rest, cap) := hsome
      simp [tryUnitPatternsAux, unit_pattern_list, h0, h1]
    · have h0 : scanPattern p1MatchHere cs = none := hnone 0 (by omega)
      have h1 : scanPattern p2MatchHere cs = none := hnone 1 (by omega)
      have h2 : scanPattern p3MatchHere cs = some (pre, rest, cap) := hsome
      simp [tryUnitPatternsAux, unit_pattern_list, h0, h1, h2]
    · have h0 : scanPattern p1MatchHere cs = none := hnone 0 (by omega)
      have h1 : scanPattern p2MatchHere cs = none := hnone 1 (by omega)
      have h2 : scanPattern p3MatchHere cs = none := hnone 2 (by omega)
      have h3 : scanPattern p4MatchHere cs = some (pre, rest, cap) := hsome
      simp [tryUnitPatternsAux, unit_pattern_list, h0, h1, h2, h3]
    · have h0 : scanPattern p1MatchHere cs = none := hnone 0 (by omega)
      have h1 : scanPattern p2MatchHere cs = none := hnone 1 (by omega)
      have h2 : scanPattern p3MatchHere cs = none := hnone 2 (by omega)
      have h3 : scanPattern p4MatchHere cs = none := hnone 3 (by omega)
      have h4 : scanPattern p5MatchHere cs = some (pre, rest, cap) := hsome
      simp [tryUnitPatternsAux, unit_pattern_list, h0, h1, h2, h3, h4]
  · rfl

/-- C8 witness: the example name matches no parenthetical or dash-count
pattern, the dash-prefixed weight pattern (index 3) fires, and the loop
returns its trimmed capture with the span removed. -/
theorem unit_extraction_order_witness :
    tryUnitPatternsAux unit_pattern_list "Kfresh Potatoes (Aalu) - 3 Kg".data =
      some (String.mk (trimChars "3 Kg".data),
        "Kfresh Potatoes (Aalu)".data ++ ([] : List Char)) :=
  unit_extraction_order.1 "Kfresh Potatoes (Aalu) - 3 Kg".data
    "Kfresh Potatoes (Aalu)".data [] "3 Kg".data 3 (by omega)
    (by intro j hj; interval_cases j <;> decide) (by decide)

end DataPipeline
